import Mathlib

/-!
Verification development for the TinyTcl interpreter core (Go sources under
src/tcl).  Each Go function used by the claims is shallowly embedded as an
executable Lean definition.  Strings are modelled as Lean strings or lists of
characters; the sources index bytes, and all inputs relevant to the claims are
ASCII, where byte indexing and character indexing coincide.  Go machine
integers (64-bit) are modelled as unbounded Int with an explicit 64-bit wrap
(wrap64) applied at each arithmetic step where overflow can occur.  A Go
runtime fault (out-of-range index, nil dereference, division by zero) is
modelled by an Option result, with none standing for the fault.  Go maps from
strings are modelled as association lists (first binding wins, insertion
replaces in place or appends).  Pointers to variable cells are modelled as
indices into an explicit heap of cells.
-/

namespace TinyTcl

/-- Two-s complement interpretation of a natural below 2^64. -/
def ofTwos (n : Nat) : Int :=
  if n < 2 ^ 63 then (n : Int) else (n : Int) - 2 ^ 64

/-- Residue of an integer modulo 2^64, as a natural number. -/
def toTwos (x : Int) : Nat :=
  (x % (2 : Int) ^ 64).toNat

/-- Wrap an unbounded integer to the 64-bit two-s complement range, the way
Go arithmetic on int does. -/
def wrap64 (x : Int) : Int :=
  ofTwos (toTwos x)

/-- Bitwise and of two Go ints (64-bit two-s complement). -/
def land64 (a b : Int) : Int :=
  ofTwos (Nat.land (toTwos a) (toTwos b))

/-- Bitwise or of two Go ints (64-bit two-s complement). -/
def lor64 (a b : Int) : Int :=
  ofTwos (Nat.lor (toTwos a) (toTwos b))

/-- Bitwise xor of two Go ints (64-bit two-s complement). -/
def lxor64 (a b : Int) : Int :=
  ofTwos (Nat.xor (toTwos a) (toTwos b))

/-- The digit table `hex = "0123456789abcdef"` from parser.go. -/
def hexChars : List Char :=
  "0123456789abcdef".data

/-- ASCII lower-casing of one character, the effect of strings.ToLower on the
ASCII inputs the claims use. -/
def charToLower (c : Char) : Char :=
  if 'A' ≤ c ∧ c ≤ 'Z' then Char.ofNat (c.toNat + 32) else c

/-- ASCII lower-casing of a string (strings.ToLower restricted to ASCII). -/
def goToLower (s : String) : String :=
  String.mk (s.data.map charToLower)

/-- Position of the lower-cased character in the digit table, or -1:
the value of strings.Index(hex, strings.ToLower(string(ch))). -/
def hexIndex (c : Char) : Int :=
  match (hexChars.indexOf? (charToLower c)) with
  | some i => (i : Int)
  | none => -1

/-- The character class unicode.IsSpace tests, restricted to ASCII. -/
def goIsSpace (c : Char) : Bool :=
  c = ' ' ∨ c = '\t' ∨ c = '\n' ∨ c = Char.ofNat 11 ∨ c = Char.ofNat 12 ∨ c = '\r'

/-- The character class unicode.IsDigit tests, restricted to ASCII. -/
def goIsDigit (c : Char) : Bool :=
  '0' ≤ c ∧ c ≤ '9'

/-- Character read of str[pos] for a string held as a character list. -/
def charAt (s : List Char) (pos : Nat) : Char :=
  s.getD pos (Char.ofNat 0)

/-- Skip leading white space, the first loop of ConvertStringToNumber
(helpers.go), with structural fuel always exceeding the possible step
count.  Returns the first position holding a non-space character. -/
def skipSpacesGo (fuel : Nat) (s : List Char) (pos : Nat) : Nat :=
  match fuel with
  | 0 => pos
  | fuel + 1 =>
      if pos < s.length then
        if goIsSpace (charAt s pos) then skipSpacesGo fuel s (pos + 1) else pos
      else pos

/-- Entry point of the white-space skip with sufficient fuel. -/
def skipSpaces (s : List Char) (pos : Nat) : Nat :=
  skipSpacesGo (s.length + 2) s pos

/-- The digit-accumulation loop of ConvertStringToNumber (helpers.go
lines 185-193).  Carries the accumulated value, the position, and the
ok flag; stops at the first character that is not a digit of the base. -/
def convDigitsGo (fuel : Nat) (s : List Char) (base : Int) (pos : Nat)
    (result : Int) (ok : Bool) : Int × Nat × Bool :=
  match fuel with
  | 0 => (result, pos, ok)
  | fuel + 1 =>
      if pos < s.length then
        let d := hexIndex (charAt s pos)
        if d = -1 ∨ d ≥ base then (result, pos, ok)
        else convDigitsGo fuel s base (pos + 1) (wrap64 (wrap64 (result * base) + d)) true
      else (result, pos, ok)

/-- Entry point of the digit loop with sufficient fuel. -/
def convDigits (s : List Char) (base : Int) (pos : Nat) (result : Int) (ok : Bool) :
    Int × Nat × Bool :=
  convDigitsGo (s.length + 2) s base pos result ok

/-- ConvertStringToNumber from helpers.go: parse a TCL numeric string.
Returns the value, the position after the last consumed character, and
whether a value was converted. -/
def ConvertStringToNumber (str : String) (base : Int) (pos : Nat) :
    Int × Nat × Bool :=
  let s := str.data
  let origPos := pos
  let pos := skipSpaces s pos
  if pos ≥ s.length then (0, origPos, false)
  else
    let (neg, pos) :=
      if charAt s pos = '-' then (true, pos + 1)
      else if charAt s pos = '+' then (false, pos + 1)
      else (false, pos)
    if pos ≥ s.length then (0, origPos, false)
    else
      let (ok0, base, pos) :=
        if charAt s pos = '0' then
          let pos := pos + 1
          if h : pos ≥ s.length then (true, (8 : Int), pos)
          else if charAt s pos = 'x' ∨ charAt s pos = 'X' then (true, 16, pos + 1)
          else (true, 8, pos)
        else (false, base, pos)
      if pos ≥ s.length then
        if ok0 then (0, pos, true) else (0, origPos, false)
      else
        let (result, pos, ok) := convDigits s base pos 0 ok0
        let result := if ok ∧ neg then wrap64 (-result) else result
        if ok then (result, pos, ok) else (result, origPos, ok)

/-- The digit-emitting loop of ConvertNumberToString (helpers.go lines
229-233).  Each step prepends hex[num % base] to the accumulated string and
divides num by the base (Go division and remainder truncate toward zero,
that is Int.tdiv and Int.tmod).  A remainder outside the index range of the
sixteen-character digit table is a Go index-out-of-range fault, returned as
none. -/
def convNumLoopGo (fuel : Nat) (base : Int) (num : Int) (result : List Char) :
    Option (List Char) :=
  match fuel with
  | 0 => none
  | fuel + 1 =>
      if num = 0 then some result
      else
        let d := num.tmod base
        if 0 ≤ d ∧ d < 16 then
          convNumLoopGo fuel base (num.tdiv base) (charAt hexChars d.toNat :: result)
        else none

/-- Entry point of the digit-emitting loop.  Sixty-six steps cover every
64-bit value in every base the program uses (8, 10 and 16); a base below
two, on which the Go loop would never terminate, exhausts the fuel. -/
def convNumLoop (base : Int) (num : Int) (result : List Char) : Option (List Char) :=
  convNumLoopGo 66 base num result

/-- ConvertNumberToString from helpers.go: format a number in a base.
For base 8 the string "0" is placed in the result first and for base 16 the
string "0x"; the digit loop then prepends each digit in front of the whole
accumulated result, so the digits end up before that prefix.  Negative
numbers in the default branch are negated with Go wrap-around semantics
before formatting.  none models a Go runtime fault in the digit loop. -/
def ConvertNumberToString (num : Int) (base : Int) : Option String :=
  let (result, neg, num) :=
    match base with
    | 8 => (['0'], false, num)
    | 16 => (['0', 'x'], false, num)
    | _ => if num < 0 then (([] : List Char), true, wrap64 (-num)) else ([], false, num)
  if num = 0 then
    some (String.mk (if base ≠ 8 then result ++ ['0'] else result))
  else
    match convNumLoop base num result with
    | none => none
    | some ds => some (String.mk (if neg then '-' :: ds else ds))

/-! ## Association lists modelling Go maps keyed by strings -/

/-- Lookup in a Go map modelled as an association list. -/
def lookupA {α : Type} (m : List (String × α)) (k : String) : Option α :=
  match m with
  | [] => none
  | (k', v) :: rest => if k' = k then some v else lookupA rest k

/-- Map update m[k] = v: replace the existing binding in place, or append. -/
def insertA {α : Type} (m : List (String × α)) (k : String) (v : α) :
    List (String × α) :=
  match m with
  | [] => [(k, v)]
  | (k', v') :: rest => if k' = k then (k, v) :: rest else (k', v') :: insertA rest k v

/-- Map deletion delete(m, k). -/
def removeA {α : Type} (m : List (String × α)) (k : String) : List (String × α) :=
  match m with
  | [] => []
  | (k', v') :: rest => if k' = k then rest else (k', v') :: removeA rest k

/-! ## Interpreter state (tcl.go)

A tclVar cell holds one string value; Go code shares cells between frames by
pointer, modelled here by indices into a heap list cells.  A tclEnv frame
maps names to cell indices; the parent pointers of the frame chain are
modelled by keeping the current frame and the list of its ancestors.  The
command table maps a name to a pointer to a tclCmd, so its entries are
Option tclCmd with none standing for a stored nil pointer (cmdRename writes
one).  A command handler function value is identified by the name of the Go
function it refers to (CmdTag); the dispatcher takes the actual running
semantics as a parameter. -/

/-- Names of the Go command handler functions registered in
tclInitCommands (basic.go); a tag stands for the function pointer. -/
inductive CmdTag where
  | tAppend | tBreak | tCatch | tConcat | tContinue | tDecr | tEqual | tError
  | tEval | tExit | tMath | tFor | tForEach | tGlobal | tIf | tInfo | tIncr
  | tJoin | tLAppend | tLIndex | tLInsert | tList | tLLength | tLRange
  | tLReplace | tLSearch | tLSet | tLSort | tNotEqual | tProc | tPuts
  | tRename | tReturn | tSet | tSplit | tString | tSubst | tSwitch
  | tUpLevel | tUpVar | tUnSet | tVariable | tWhile | tUserProc
deriving DecidableEq, Repr

/-- A command table entry (struct tclCmd): handler, user-proc flag, and for
user procedures the parameter text and body stored by cmdProc. -/
structure tclCmd where
  fn : CmdTag
  proc : Bool := false
  args : String := ""
  body : String := ""
deriving DecidableEq, Repr

/-- One scope frame (struct tclEnv): name-to-cell map, local flags, the
argument trace string, and the level recorded at creation. -/
structure tclEnv where
  vars : List (String × Nat) := []
  local_ : List (String × Bool) := []
  args : String := ""
  level : Int := 0
deriving DecidableEq, Repr

/-- The interpreter state (struct Tcl).  cur is tcl.env, parents the chain
of parent frames, cells the heap of variable cells shared via indices. -/
structure Tcl where
  cur : tclEnv := {}
  parents : List tclEnv := []
  level : Int := 0
  cells : List String := []
  cmds : List (String × Option tclCmd) := []
  result : String := ""
deriving DecidableEq, Repr

/-- Return codes (tcl.go). -/
def RetOk : Int := 0

/-- Error return code. -/
def RetError : Int := 1

/-- Return-statement code. -/
def RetReturn : Int := 2

/-- Break-statement code. -/
def RetBreak : Int := 3

/-- Continue-statement code. -/
def RetContinue : Int := 4

/-- Exit code. -/
def RetExit : Int := 5

/-- SetResult from tcl.go: store the result string and pass the code on. -/
def SetResult (tcl : Tcl) (err : Int) (str : String) : Int × Tcl :=
  (err, { tcl with result := str })

/-- SetVarValue from helpers.go: update the cell bound in the current frame,
or create a fresh cell and bind it. -/
def SetVarValue (tcl : Tcl) (name : String) (value : String) : Tcl :=
  match lookupA tcl.cur.vars name with
  | some i => { tcl with cells := tcl.cells.set i value }
  | none =>
      { tcl with
        cells := tcl.cells ++ [value]
        cur := { tcl.cur with vars := insertA tcl.cur.vars name tcl.cells.length } }

/-- UnSetVar from helpers.go: drop the binding and the local flag from the
current frame only; the cell itself stays in the heap. -/
def UnSetVar (tcl : Tcl) (name : String) : Tcl :=
  { tcl with
    cur := { tcl.cur with
      vars := removeA tcl.cur.vars name
      local_ := removeA tcl.cur.local_ name } }

/-- GetVarValue from helpers.go: read the cell bound in the current frame. -/
def GetVarValue (tcl : Tcl) (name : String) : Int × String :=
  match lookupA tcl.cur.vars name with
  | none => (RetError, "value: " ++ name ++ " not found")
  | some i => (RetOk, tcl.cells.getD i "")

/-- newEnv from helpers.go: an empty frame recording the current level. -/
def newEnv (tcl : Tcl) : tclEnv :=
  { vars := [], local_ := [], args := "", level := tcl.level }

/-- setVarNewEnv from helpers.go: allocate a fresh cell for value and bind
name to it in the frame under construction, with the given local flag. -/
def setVarNewEnv (tcl : Tcl) (env : tclEnv) (name value : String) (loc : Bool) :
    Tcl × tclEnv :=
  ({ tcl with cells := tcl.cells ++ [value] },
   { env with
     vars := insertA env.vars name tcl.cells.length
     local_ := insertA env.local_ name loc })

/-- pushEnv from helpers.go: link the frame to the current chain and make it
current, incrementing the level. -/
def pushEnv (tcl : Tcl) (env : tclEnv) : Tcl :=
  { tcl with parents := tcl.cur :: tcl.parents, cur := env, level := tcl.level + 1 }

/-- popEnv from helpers.go: restore the parent frame and decrement the level.
Popping the root frame leaves Go with a nil current environment that faults
on the next use; that state is returned as none. -/
def popEnv (tcl : Tcl) : Option Tcl :=
  match tcl.parents with
  | [] => none
  | p :: ps => some { tcl with cur := p, parents := ps, level := tcl.level - 1 }

/-- The walk loop of getLevel (helpers.go lines 460-463): step to the parent
while the counter is below the requested level and a parent exists.  The
frame chain is cur followed by parents; the result is the index of the frame
the walk stops at.  The loop counter running from zero up to the level is
modelled as the count of remaining steps. -/
def getLevelWalk (chainLen : Nat) (idx : Nat) (remaining : Nat) : Nat :=
  match remaining with
  | 0 => idx
  | remaining + 1 =>
      if idx + 1 < chainLen then getLevelWalk chainLen (idx + 1) remaining
      else idx

/-- getLevel from helpers.go: resolve a frame address.  A top-relative
request n addresses the frame at depth currentLevel - n, the subtraction
wrapping at 64 bits as Go int arithmetic does; the level is checked
negative before walking, and the walk stops early at the root. -/
def getLevel (tcl : Tcl) (top : Bool) (level : Int) : Option Nat :=
  let level := if top then wrap64 (tcl.level - level) else level
  if level < 0 then none
  else some (getLevelWalk (tcl.parents.length + 1) 0 level.toNat)

/-- The frame chain as a list, current frame first. -/
def frames (tcl : Tcl) : List tclEnv :=
  tcl.cur :: tcl.parents

/-- Observation helper (not source code): the value seen for a name through
the binding held by the frame at the given chain index, reading the shared
heap.  Used to state what a read in an ancestor frame returns. -/
def observeVar (tcl : Tcl) (idx : Nat) (name : String) : Option String :=
  match (frames tcl)[idx]? with
  | none => none
  | some e =>
      match lookupA e.vars name with
      | none => none
      | some i => tcl.cells[i]?

/-! ## Glob matcher (helpers.go Match) -/

/-- Outcome of the character-class loop inside Match: a Go index fault, an
early return of a value, the break-outer jump (which reaches the final
return of the match count), or continuation of the outer loop at a new
pattern index. -/
inductive ClassRes where
  | fault : ClassRes
  | ret : Int → ClassRes
  | breakOuter : ClassRes
  | cont : Nat → ClassRes
deriving DecidableEq, Repr

/-- The failed-range test of the class loop (helpers.go lines 386-394):
whether target character t lies outside the first-to-last range, with the
optional ASCII case folding. -/
def classBad (ic : Bool) (t first last : Char) : Bool :=
  if ic then
    charToLower t < charToLower first ∨ charToLower last < charToLower t
  else t < first ∨ last < t

/-- The case-square-bracket loop of Match (helpers.go lines 360-396),
entered just after the opening bracket.  Each listed class character (or
escaped character) is compared against target[k]; the loop leaves the Go
code via return 0 on a failed range test, via break on the closing bracket,
or by running off the pattern.  Reading pat or target out of range is a Go
index fault.  The source checks i against len(pat) right after an increment
from i < len(pat); those dead branch-outer checks are kept verbatim, as is
the dead assignment that was meant to set the range end (so last always
stays the character first started as, and a dash plus range end are treated
as further class members). -/
def classLoop (pat target : List Char) (ic : Bool) (k : Nat) (i : Nat) : ClassRes :=
  if h : i < pat.length then
    if i + 1 > pat.length then ClassRes.breakOuter
    else if charAt pat i = ']' then ClassRes.cont (i + 1)
    else if charAt pat i = '\\' then
      if h2 : i + 1 < pat.length then
        if i + 2 > pat.length then ClassRes.breakOuter
        else if h3 : i + 2 < pat.length then
          if charAt pat (i + 2) = '-' then
            if hk : k < target.length then
              if classBad ic (charAt target k) (charAt pat (i + 1)) (charAt pat i) then
                ClassRes.ret 0
              else classLoop pat target ic k (i + 3)
            else ClassRes.fault
          else
            if hk : k < target.length then
              if classBad ic (charAt target k) (charAt pat (i + 1)) (charAt pat i) then
                ClassRes.ret 0
              else classLoop pat target ic k (i + 2)
            else ClassRes.fault
        else ClassRes.fault
      else ClassRes.fault
    else
      if h3 : i + 1 < pat.length then
        if charAt pat (i + 1) = '-' then
          if hk : k < target.length then
            if classBad ic (charAt target k) (charAt pat i) (charAt pat i) then
              ClassRes.ret 0
            else classLoop pat target ic k (i + 2)
          else ClassRes.fault
        else
          if hk : k < target.length then
            if classBad ic (charAt target k) (charAt pat i) (charAt pat i) then
              ClassRes.ret 0
            else classLoop pat target ic k (i + 1)
          else ClassRes.fault
      else ClassRes.fault
  else ClassRes.cont i
termination_by pat.length - i
decreasing_by all_goals omega

mutual

/-- Match from helpers.go: glob-match a pattern against a target, with an
ASCII case-folding option and a recursion-depth budget.  Returns the number
of target characters consumed, 0 on mismatch, -1 when the budget is
exhausted, -2 on a trailing escape; none models a Go index fault.  The
definition is total for every budget, as the source is: the star case hands
the recursive call a strictly shorter pattern (everything past the star),
so the call tree is bounded by the pattern length whatever the budget, and
the zero-budget check only selects the -1 result. -/
def GoMatch (pat target : List Char) (ic : Bool) (depth : Int) : Option Int :=
  if pat = [] then some (if target = [] then 0 else 1)
  else if depth = 0 then some (-1)
  else matchLoop pat target ic depth 0 0
termination_by (pat.length, pat.length + target.length + 1, 1)

/-- The outer scanning loop of Match (helpers.go lines 340-419) over the
pattern index i and target index k.  The star case recurses into GoMatch
on the pattern past the star with the budget reduced by one; the class
case runs the class loop; the escape case consumes the next pattern
character and falls through to the plain comparison.  A plain comparison
with the target exhausted is a Go index fault. -/
def matchLoop (pat target : List Char) (ic : Bool) (depth : Int) (i k : Nat) :
    Option Int :=
  if h : i < pat.length then
    if charAt pat i = '*' then
      match GoMatch (pat.drop (i + 1)) (target.drop k) ic (depth - 1) with
      | none => none
      | some r =>
          if r > 0 then some r
          else if hk : k ≥ target.length then some 0
          else matchLoop pat target ic depth i (k + 1)
    else if charAt pat i = '?' then
      if k ≥ target.length then some 0
      else matchLoop pat target ic depth (i + 1) (k + 1)
    else if charAt pat i = '[' then
      match hcl : classLoop pat target ic k (i + 1) with
      | ClassRes.fault => none
      | ClassRes.ret v => some v
      | ClassRes.breakOuter => some (k : Int)
      | ClassRes.cont i' =>
          if hprog : i < i' then matchLoop pat target ic depth i' k
          else none
    else if charAt pat i = '\\' then
      if i + 1 ≥ pat.length then some (-2)
      else if k ≥ target.length then some 0
      else
        if hk : k < target.length then
          let same :=
            if ic then charToLower (charAt pat (i + 1)) = charToLower (charAt target k)
            else charAt pat (i + 1) = charAt target k
          if same then matchLoop pat target ic depth (i + 2) (k + 1)
          else some 0
        else none
    else
      if hk : k < target.length then
        let same :=
          if ic then charToLower (charAt pat i) = charToLower (charAt target k)
          else charAt pat i = charAt target k
        if same then matchLoop pat target ic depth (i + 1) (k + 1)
        else some 0
      else none
  else some (k : Int)
termination_by (pat.length, (pat.length - i) + (target.length - k), 0)
decreasing_by
  all_goals simp only [Prod.lex_iff, List.length_drop]
  all_goals
    first
    | (left; omega)
    | (right; exact ⟨trivial, Or.inl (by omega)⟩)

end

/-! ## Escape decoding and word-safe escaping (helpers.go) -/

/-- hexStringToChar from helpers.go: decode one or two hex digits at the
head of a string; reading the head of an empty string is a Go fault. -/
def hexStringToChar (s : List Char) : Option (Nat × Int) :=
  match s with
  | [] => none
  | c :: rest =>
      let n := hexIndex c
      if n < 0 then some (0, -2)
      else
        let val := n.toNat
        match rest with
        | [] => some (val, 1)
        | c2 :: _ =>
            let n2 := hexIndex c2
            if n2 < 0 then some (val, 1)
            else some (val * 16 + n2.toNat, 2)

/-- One step outcome of the UnEscape scan. -/
inductive UnEscRes where
  | done : String → Int → UnEscRes
  | fault : UnEscRes
deriving DecidableEq, Repr

/-- The scanning loop of UnEscape (helpers.go lines 63-134), carried over
the remaining characters with the accumulated result and the octal and
escape states.  The case of a backslash-x with no following characters
reaches hexStringToChar on an empty string, a Go fault. -/
def unEscLoopGo (fuel : Nat) (s : List Char) (pos : Nat) (result : String) (num : Nat)
    (digits : Nat) (inEscape : Bool) (inOctal : Bool) : UnEscRes :=
  match fuel with
  | 0 => UnEscRes.fault
  | fuel + 1 =>
  if pos < s.length then
    let ch := charAt s pos
    let flush :=
      inOctal ∧ ¬(digits < 3 ∧ '0' ≤ ch ∧ ch ≤ '7')
    if inOctal ∧ digits < 3 ∧ '0' ≤ ch ∧ ch ≤ '7' then
      unEscLoopGo fuel s (pos + 1) result (num * 8 + (ch.toNat - '0'.toNat)) (digits + 1)
        inEscape inOctal
    else
      let result := if flush then result.push (Char.ofNat num) else result
      let digits := if flush then 0 else digits
      let inOctal := if flush then false else inOctal
      if inEscape then
        if ch = '\n' then unEscLoopGo fuel s (pos + 1) result num digits false inOctal
        else if ch = '\\' then unEscLoopGo fuel s (pos + 1) (result.push '\\') num digits false inOctal
        else if ch = 'a' then unEscLoopGo fuel s (pos + 1) (result.push (Char.ofNat 7)) num digits false inOctal
        else if ch = 'b' then unEscLoopGo fuel s (pos + 1) (result.push (Char.ofNat 8)) num digits false inOctal
        else if ch = 'e' then unEscLoopGo fuel s (pos + 1) (result.push (Char.ofNat 27)) num digits false inOctal
        else if ch = 'f' then unEscLoopGo fuel s (pos + 1) (result.push (Char.ofNat 12)) num digits false inOctal
        else if ch = 'n' then unEscLoopGo fuel s (pos + 1) (result.push '\n') num digits false inOctal
        else if ch = 'r' then unEscLoopGo fuel s (pos + 1) (result.push '\r') num digits false inOctal
        else if ch = 't' then unEscLoopGo fuel s (pos + 1) (result.push '\t') num digits false inOctal
        else if ch = 'v' then unEscLoopGo fuel s (pos + 1) (result.push (Char.ofNat 11)) num digits false inOctal
        else if ch = 'x' then
          match hexStringToChar (s.drop (pos + 1)) with
          | none => UnEscRes.fault
          | some (val, n) =>
              if (n : Int) < 0 then UnEscRes.done "" n
              else if n ≠ 0 then
                unEscLoopGo fuel s (pos + 1 + n.toNat) (result.push (Char.ofNat val))
                  num digits false inOctal
              else unEscLoopGo fuel s (pos + 1) result num digits false inOctal
        else if ch = '0' then unEscLoopGo fuel s (pos + 1) result 0 digits false true
        else unEscLoopGo fuel s (pos + 1) (result.push ch) num digits false inOctal
      else
        if ch = '\\' then unEscLoopGo fuel s (pos + 1) result num digits true inOctal
        else unEscLoopGo fuel s (pos + 1) (result.push ch) num digits false inOctal
  else
    if digits > 0 then UnEscRes.done (result.push (Char.ofNat num)) 0
    else UnEscRes.done result 0

/-- Entry point of the UnEscape scan with sufficient fuel (each step
advances the position by at least one). -/
def unEscLoop (s : List Char) (pos : Nat) (result : String) (num : Nat)
    (digits : Nat) (inEscape : Bool) (inOctal : Bool) : UnEscRes :=
  unEscLoopGo (s.length + 2) s pos result num digits inEscape inOctal

/-- UnEscape from helpers.go: decode backslash escapes.  Returns the decoded
string and a status, or none for a Go fault. -/
def UnEscape (str : String) : Option (String × Int) :=
  if str = "" then some ("", -1)
  else
    match unEscLoop str.data 0 "" 0 0 false false with
    | UnEscRes.fault => none
    | UnEscRes.done r n => some (r, n)

/-- The first scan of StringEscape (helpers.go lines 277-298): fold over the
characters computing the running brace balance, the needs-escaping flag, the
blank-outside-braces flag and the last character.  none reports the early
return taken when a backslash is the final character. -/
def escScan (s : List Char) (braces : Int) (sp hasBlank : Bool) (e : Char) :
    Option (Int × Bool × Bool × Char) :=
  match s with
  | [] => some (braces, sp, hasBlank, e)
  | ch :: rest =>
      let e := ch
      let blank := ch = ' ' ∨ ch = '\t' ∨ ch = '\n' ∨ ch = '\r' ∨ ch = Char.ofNat 11 ∨
        ch = '[' ∨ ch = ']' ∨ ch = '$'
      let sp := if blank then true else sp
      let hasBlank := if blank ∧ braces = 0 then true else hasBlank
      let braces := if ch = '{' then braces + 1 else braces
      let braces := if ch = '}' then braces - 1 else braces
      if ch = '\\' then
        if rest = [] then none
        else escScan rest braces true hasBlank e
      else escScan rest braces sp hasBlank e

/-- The brace-backslashing loop of StringEscape (helpers.go lines 302-311):
prefix every brace with a backslash unless the previous character was
itself a backslash. -/
def escBackslash (s : List Char) (sp : Bool) (res : String) : String :=
  match s with
  | [] => res
  | ch :: rest =>
      let res := if ¬sp ∧ (ch = '{' ∨ ch = '}') then res.push '\\' else res
      escBackslash rest (ch = '\\') (res.push ch)

/-- StringEscape from helpers.go: wrap or escape a value so that the list
syntax can carry it.  The empty string becomes a braced empty word; a value
whose scan set the needs-escaping flag is brace-wrapped or brace-escaped;
anything else is returned unchanged. -/
def StringEscape (str : String) : String :=
  if str = "" then "\x7b\x7d"
  else
    match escScan str.data 0 false false (Char.ofNat 0) with
    | none => "\x7b" ++ str ++ "\x7d"
    | some (braces, sp, hasBlank, e) =>
        if sp then
          if braces ≠ 0 ∧ ¬(charAt str.data 0 = '{' ∧ e = '}') then
            escBackslash str.data false ""
          else if hasBlank ∨ ¬(charAt str.data 0 = '{' ∧ e = '}') then
            "\x7b" ++ str ++ "\x7d"
          else str
        else str

/-- The element-joining loop of cmdList (the list command, list.go): each
argument is word-safe escaped and appended after a space. -/
def cmdListJoin (items : List String) : String :=
  match items with
  | [] => ""
  | item :: rest => " " ++ StringEscape item ++ cmdListJoin rest

/-- cmdList from list.go: build a list string from the arguments after the
command name, dropping the leading space.  Called with no arguments the Go
code slices the empty string out of range, a fault returned as none. -/
def cmdList (tcl : Tcl) (args : List String) : Option (Int × Tcl) :=
  let str := cmdListJoin (args.drop 1)
  if str = "" then none
  else some (SetResult tcl RetOk (str.drop 1))

/-! ## Tokenizer (parser.go)

The scanning loops are given explicit fuel; every call site passes fuel
exceeding any possible number of loop steps (each step advances the scan
position or reaches the end sentinel), so fuel exhaustion (none) never
occurs on the inputs reasoned about. -/

/-- Token kinds (parser.go lines 32-42). -/
def tokCmd : Int := 1

/-- Escape-fragment token. -/
def tokEscape : Int := 2

/-- Variable token. -/
def tokVar : Int := 3

/-- Plain string token. -/
def tokString : Int := 4

/-- End-of-line token. -/
def tokEOL : Int := 5

/-- Separator token. -/
def tokSpace : Int := 6

/-- Unused ok token. -/
def tokOk : Int := 7

/-- Unused error token. -/
def tokError : Int := 8

/-- End-of-input token. -/
def tokEOF : Int := 9

/-- Parser options (parser.go struct parserOptions). -/
structure parserOptions where
  noCommands : Bool := false
  noEscapes : Bool := false
  noVars : Bool := false
  noEval : Bool := false
  subst : Bool := false
deriving DecidableEq, Repr

/-- Parser state (parser.go struct parser).  The current character is the
NUL sentinel once the input is exhausted, exactly as the Go code uses the
zero byte. -/
structure parser where
  str : List Char
  pos : Nat := 0
  nextPos : Nat
  char : Char
  start : Nat := 0
  end_ : Nat := 0
  inQuote : Bool := false
  token : Int
  options : parserOptions
deriving DecidableEq, Repr

/-- newParser from parser.go: the first statement indexes str[0], so the
empty string is a Go fault, returned as none. -/
def newParser (str : List Char) (options : parserOptions) : Option parser :=
  match str with
  | [] => none
  | c :: _ =>
      some { str := str, char := c, nextPos := 1, token := tokEOL, options := options }

/-- next from parser.go: advance one character, folding a backslash-newline
pair by skipping it and advancing again; at the end of input set the NUL
sentinel. -/
def pnextGo (fuel : Nat) (p : parser) : parser :=
  match fuel with
  | 0 => p
  | fuel + 1 =>
      if p.nextPos < p.str.length then
        let pos := p.nextPos
        let ch := charAt p.str pos
        if ch = '\\' ∧ pos + 1 < p.str.length ∧ charAt p.str (pos + 1) = '\n' then
          pnextGo fuel { p with pos := pos, char := ch, nextPos := pos + 2 }
        else { p with pos := pos, char := ch, nextPos := pos + 1 }
      else { p with char := Char.ofNat 0, pos := p.str.length }

/-- Entry point of the character advance with sufficient fuel (the fold
recursion raises nextPos by two per step). -/
def pnext (p : parser) : parser :=
  pnextGo (p.str.length + 2) p

/-- parseIsSpace from parser.go. -/
def parseIsSpace (p : parser) : Bool :=
  p.char = ' ' ∨ p.char = '\t' ∨ p.char = '\n' ∨ p.char = '\r'

/-- The skip loop of parseSeperator. -/
def sepLoop (fuel : Nat) (p : parser) : Option parser :=
  match fuel with
  | 0 => none
  | fuel + 1 => if parseIsSpace p then sepLoop fuel (pnext p) else some p

/-- parseSeperator from parser.go: consume a run of blanks. -/
def parseSeperator (p : parser) : Option (Bool × parser) := do
  let p ← sepLoop (p.str.length + 2) { p with start := p.pos }
  some (true, { p with end_ := p.pos, token := tokSpace })

/-- The skip loop of parseEol. -/
def eolLoop (fuel : Nat) (p : parser) : Option parser :=
  match fuel with
  | 0 => none
  | fuel + 1 =>
      if parseIsSpace p ∨ p.char = ';' then eolLoop fuel (pnext p) else some p

/-- parseEol from parser.go: consume a run of line ends, blanks and
semicolons. -/
def parseEol (p : parser) : Option (Bool × parser) := do
  let p ← eolLoop (p.str.length + 2) { p with start := p.pos }
  some (true, { p with end_ := p.pos, token := tokEOL })

/-- The bracket-balancing loop of parseCommand (parser.go lines 187-217).
Tracks the brace level and the bracket level; a backslash skips the next
character; the loop leaves at the matching close bracket or at the end of
input. -/
def cmdLoop (fuel : Nat) (p : parser) (blevel level : Int) : Option parser :=
  match fuel with
  | 0 => none
  | fuel + 1 =>
      if p.char = Char.ofNat 0 then some p
      else if p.char = '[' then
        cmdLoop fuel (pnext p) blevel (if blevel = 0 then level + 1 else level)
      else if p.char = ']' then
        if blevel = 0 then
          if level - 1 = 0 then some p
          else cmdLoop fuel (pnext p) blevel (level - 1)
        else cmdLoop fuel (pnext p) blevel level
      else if p.char = '\\' then cmdLoop fuel (pnext (pnext p)) blevel level
      else if p.char = '{' then cmdLoop fuel (pnext p) (blevel + 1) level
      else if p.char = '}' then
        cmdLoop fuel (pnext p) (if blevel ≠ 0 then blevel - 1 else blevel) level
      else cmdLoop fuel (pnext p) blevel level

/-- parseCommand from parser.go: collect the text of a bracketed command
substitution, starting on the open bracket. -/
def parseCommand (p : parser) : Option (Bool × parser) := do
  let p := pnext p
  let p := { p with start := p.pos }
  let p ← cmdLoop (2 * p.str.length + 4) p 0 1
  if p.char ≠ ']' then some (false, p)
  else
    let p := { p with end_ := p.pos, token := tokCmd }
    some (true, pnext p)

/-- isVarChar from parser.go, on ASCII: letter, digit or underscore. -/
def isVarChar (p : parser) : Bool :=
  p.char.isAlpha ∨ p.char.isDigit ∨ p.char = '_'

/-- The name-collecting loop of parseVar. -/
def varLoop (fuel : Nat) (p : parser) : Option parser :=
  match fuel with
  | 0 => none
  | fuel + 1 => if isVarChar p then varLoop fuel (pnext p) else some p

/-- parseVar from parser.go: collect a variable reference starting on the
dollar sign.  A dollar followed by no name character yields an empty
tokString (the token text runs from start to end, both at the position
after the dollar). -/
def parseVar (p : parser) : Option (Bool × parser) := do
  let p := pnext p
  let (brace, p) := if p.char = '{' then (true, pnext p) else (false, p)
  let p := { p with start := p.pos }
  let p ← varLoop (p.str.length + 2) p
  let p := { p with end_ := p.pos }
  if brace ∧ p.char ≠ '}' then some (false, p)
  else if ¬brace ∧ p.start = p.pos then
    some (true, { p with start := p.pos, token := tokString })
  else some (true, { p with token := tokVar })

/-- The brace-balancing loop of parseBrace (parser.go lines 267-292). -/
def braceLoop (fuel : Nat) (p : parser) (level : Int) : Option (Bool × parser) :=
  match fuel with
  | 0 => none
  | fuel + 1 =>
      if p.char = '\\' then
        if p.nextPos < p.str.length then braceLoop fuel (pnext (pnext p)) level
        else some (false, p)
      else if p.char = '}' then
        if level - 1 = 0 then
          let p := { p with end_ := p.pos, token := tokString }
          some (true, pnext p)
        else braceLoop fuel (pnext p) (level - 1)
      else if p.char = '{' then braceLoop fuel (pnext p) (level + 1)
      else if p.char = Char.ofNat 0 then some (false, p)
      else braceLoop fuel (pnext p) level

/-- parseBrace from parser.go: collect a braced word starting on the open
brace. -/
def parseBrace (p : parser) : Option (Bool × parser) :=
  let p := pnext p
  braceLoop (2 * p.str.length + 4) { p with start := p.pos } 1

/-- The scanning loop of parseString (parser.go lines 311-369): collect text
until a substitution boundary, a word end, or the end of input. -/
def strLoop (fuel : Nat) (p : parser) : Option (Bool × parser) :=
  match fuel with
  | 0 => none
  | fuel + 1 =>
      if p.char = Char.ofNat 0 then
        if p.inQuote then some (false, p)
        else some (true, { p with end_ := p.pos, token := tokEscape })
      else if p.char = '\\' then
        if ¬p.options.noEscapes then
          if p.nextPos < p.str.length then strLoop fuel (pnext (pnext p))
          else some (false, p)
        else strLoop fuel (pnext p)
      else if p.char = '$' then
        if ¬p.options.noVars then some (true, { p with end_ := p.pos, token := tokEscape })
        else strLoop fuel (pnext p)
      else if p.char = '[' then
        if ¬p.options.noCommands then
          some (true, { p with end_ := p.pos, token := tokEscape })
        else strLoop fuel (pnext p)
      else if p.char = ' ' ∨ p.char = '\t' ∨ p.char = ';' ∨ p.char = '\n' then
        if ¬p.inQuote then some (true, { p with end_ := p.pos, token := tokEscape })
        else strLoop fuel (pnext p)
      else if p.char = '"' then
        if p.inQuote then
          some (true, pnext { p with end_ := p.pos, token := tokEscape, inQuote := false })
        else strLoop fuel (pnext p)
      else strLoop fuel (pnext p)

/-- parseString from parser.go: dispatch to parseBrace at the start of a
braced word, enter quote mode on a leading double quote, then scan. -/
def parseString (p : parser) : Option (Bool × parser) :=
  let newWord := p.token = tokSpace ∨ p.token = tokEOL ∨ p.token = tokString
  if newWord ∧ p.char = '{' ∧ ¬p.options.subst then parseBrace p
  else
    let p := if newWord ∧ p.char = '"' then pnext { p with inQuote := true } else p
    strLoop (2 * p.str.length + 4) { p with start := p.pos }

/-- The skip loop of parseComment (parser.go lines 374-380): run to the next
newline, folding escaped newlines.  The look-ahead read str[pos+1] is a Go
fault when the backslash is the last character. -/
def commentLoop (fuel : Nat) (p : parser) : Option parser :=
  match fuel with
  | 0 => none
  | fuel + 1 =>
      if p.char ≠ '\n' ∧ p.char ≠ Char.ofNat 0 then
        if p.char = '\\' then
          if p.pos + 1 < p.str.length then
            if charAt p.str (p.pos + 1) = '\n' then commentLoop fuel (pnext (pnext p))
            else commentLoop fuel (pnext p)
          else none
        else commentLoop fuel (pnext p)
      else some p

/-- getToken from parser.go: dispatch on the current character; at the end
of input report one EndOfLine, then EndOfFile.  The comment case skips the
comment and loops. -/
def getToken (fuel : Nat) (p : parser) : Option (Bool × parser) :=
  match fuel with
  | 0 => none
  | fuel + 1 =>
      if p.char ≠ Char.ofNat 0 then
        if p.char = ' ' ∨ p.char = '\t' then
          if p.inQuote then parseString p else parseSeperator p
        else if p.char = '\n' ∨ p.char = '\r' ∨ p.char = ';' then
          if p.inQuote then parseString p else parseEol p
        else if p.char = '[' then do
          let (r, p) ← parseCommand p
          if r ∧ p.token = tokCmd ∧ p.options.noCommands then
            some (true, { p with start := p.start - 1, end_ := p.end_ + 1, token := tokString })
          else some (r, p)
        else if p.char = '$' then
          if p.options.noVars then parseString p else parseVar p
        else if p.char = '#' then
          if p.token = tokEOL then do
            let p ← commentLoop (p.str.length + 2) p
            getToken fuel p
          else parseString p
        else parseString p
      else
        if p.token ≠ tokEOL ∧ p.token ≠ tokEOF then some (true, { p with token := tokEOL })
        else some (true, { p with token := tokEOF })

/-- GetString from parser.go: the text of the last token. -/
def GetString (p : parser) : String :=
  if p.start = p.end_ then ""
  else String.mk ((p.str.drop p.start).take (p.end_ - p.start))

/-- The token-collecting loop of ParseArgs (tcl.go lines 202-212). -/
def parseArgsLoop (fuel : Nat) (p : parser) (res : List String) :
    Option (List String) :=
  match fuel with
  | 0 => none
  | fuel + 1 =>
      match getToken (2 * p.str.length + 8) p with
      | none => none
      | some (false, _) => some []
      | some (true, p) =>
          if p.token = tokEOF then some res
          else if p.token = tokString ∨ p.token = tokVar ∨ p.token = tokCmd ∨
              p.token = tokEscape then
            parseArgsLoop fuel p (res ++ [GetString p])
          else parseArgsLoop fuel p res

/-- ParseArgs from tcl.go: split a string into words with all substitution
disabled.  The empty string short-circuits to a one-element list holding
the empty word, constructing no parser. -/
def ParseArgs (str : String) : Option (List String) :=
  if str = "" then some [""]
  else
    match newParser str.data
        { noCommands := true, noEscapes := true, noVars := true, noEval := true } with
    | none => none
    | some p => parseArgsLoop (2 * str.length + 8) p []

/-! ## Evaluator (tcl.go eval, doCommand)

eval and the command handlers are mutually recursive through the command
table; the embedding breaks the knot by passing the recursive entry points
as function parameters.  evO stands for the recursive call tcl.eval made for
a command substitution, and doO for tcl.doCommand; theorems about the token
loop and about individual commands hold for every instantiation of these
parameters, in particular for the real tied-together semantics. -/

/-- The type of the recursive eval entry point (tcl.eval). -/
def EvT : Type := Tcl → String → parserOptions → Option (Int × Tcl)

/-- The type of the command-dispatch entry point (tcl.doCommand). -/
def DoT : Type := Tcl → List String → Option (Int × Tcl)

/-- Append a token value to the word list (tcl.go lines 184-189): start a
new word after a separator or line end, otherwise concatenate to the last
word.  Concatenating with no word accumulated indexes an empty slice at
position -1, a Go fault. -/
def appendArg (args : List String) (prevToken : Int) (val : String) :
    Option (List String) :=
  if prevToken = tokSpace ∨ prevToken = tokEOL then some (args ++ [val])
  else
    match args with
    | [] => none
    | _ => some (args.dropLast ++ [args.getLastD "" ++ val])

/-- The substitution loop of eval (tcl.go lines 121-191), one token per
step.  Each token is resolved (variable lookup, nested command evaluation
via evO, escape decoding), line ends either join the words into the result
(noEval) or dispatch via doO, and other tokens extend the word list. -/
def evalLoop (evO : EvT) (doO : DoT) (fuel : Nat) (strOrig : String)
    (opts : parserOptions) (tcl : Tcl) (p : parser) (args : List String)
    (prevToken : Int) : Option (Int × Tcl) :=
  match fuel with
  | 0 => none
  | fuel + 1 =>
      match getToken (2 * p.str.length + 8) p with
      | none => none
      | some (false, _) =>
          some (RetError, { tcl with result := "error parsing: " ++ strOrig })
      | some (true, p) =>
          if p.token = tokEOF then some (RetOk, tcl)
          else
            let val := GetString p
            let afterSubst : Option ((String × Tcl) ⊕ (Int × Tcl)) :=
              if p.token = tokVar then
                let (ok, result) := GetVarValue tcl val
                if ok ≠ RetOk then some (Sum.inr (RetError, { tcl with result := result }))
                else some (Sum.inl ((if result.length = 0 then "" else result), tcl))
              else if p.token = tokCmd then
                match evO tcl val {} with
                | none => none
                | some (err, tcl') =>
                    if err ≠ RetOk then
                      if p.options.noEval ∧ err = RetBreak then
                        some (Sum.inr (RetOk,
                          { tcl' with result := " ".intercalate args }))
                      else if p.options.noEval ∧ (err = RetContinue ∨ err = RetReturn) then
                        some (Sum.inl (tcl'.result, tcl'))
                      else some (Sum.inr (err, tcl'))
                    else some (Sum.inl (tcl'.result, tcl'))
              else if p.token = tokEscape then
                match UnEscape val with
                | none => none
                | some (v, _) => some (Sum.inl (v, tcl))
              else some (Sum.inl (val, tcl))
            match afterSubst with
            | none => none
            | some (Sum.inr r) => some r
            | some (Sum.inl (val, tcl)) =>
                if p.token = tokSpace then
                  evalLoop evO doO fuel strOrig opts tcl p args tokSpace
                else if p.token = tokEOL then
                  if opts.noEval then
                    evalLoop evO doO fuel strOrig opts
                      { tcl with result := " ".intercalate args } p [] tokEOL
                  else
                    match doO tcl args with
                    | none => none
                    | some (err, tcl) =>
                        if err ≠ RetOk then some (err, tcl)
                        else evalLoop evO doO fuel strOrig opts tcl p [] tokEOL
                else
                  match appendArg args prevToken val with
                  | none => none
                  | some args => evalLoop evO doO fuel strOrig opts tcl p args p.token

/-- eval from tcl.go: reset the result, short-circuit the empty input, and
otherwise run the substitution loop over a fresh parser. -/
def evalGen (evO : EvT) (doO : DoT) (tcl : Tcl) (str : String)
    (opts : parserOptions) : Option (Int × Tcl) :=
  let tcl := { tcl with result := "" }
  if str = "" then some (RetOk, tcl)
  else
    match newParser str.data opts with
    | none => none
    | some p => evalLoop evO doO (4 * str.length + 16) str opts tcl p [] tokEOL

/-- doCommand from tcl.go, with the handler call abstracted as run: empty
argument vectors succeed silently, an unknown name reports the
unable-to-find error, and a table slot holding a stored nil pointer is a Go
nil dereference when called, returned as none. -/
def doCommand (run : tclCmd → Tcl → List String → Option (Int × Tcl))
    (tcl : Tcl) (args : List String) : Option (Int × Tcl) :=
  if args.length = 0 then some (RetOk, tcl)
  else
    let tcl := { tcl with result := "" }
    let name := args.getD 0 ""
    match lookupA tcl.cmds name with
    | none => some (SetResult tcl RetError ("unable to find command: " ++ name))
    | some none => none
    | some (some cmd) => run cmd tcl args

/-- Register from basic.go (first variant): store a native handler under a
name with the user-proc flag clear. -/
def Register (tcl : Tcl) (name : String) (fn : CmdTag) : Tcl :=
  { tcl with cmds := insertA tcl.cmds name (some { fn := fn }) }

/-- tclInitCommands from basic.go: the full registration list, in source
order, command names mapped to the tags of their Go handler functions. -/
def tclInitCommands (tcl : Tcl) : Tcl :=
  let tcl := Register tcl "append" CmdTag.tAppend
  let tcl := Register tcl "break" CmdTag.tBreak
  let tcl := Register tcl "catch" CmdTag.tCatch
  let tcl := Register tcl "concat" CmdTag.tConcat
  let tcl := Register tcl "continue" CmdTag.tContinue
  let tcl := Register tcl "decr" CmdTag.tDecr
  let tcl := Register tcl "eq" CmdTag.tEqual
  let tcl := Register tcl "error" CmdTag.tError
  let tcl := Register tcl "eval" CmdTag.tEval
  let tcl := Register tcl "exit" CmdTag.tExit
  let tcl := Register tcl "expr" CmdTag.tMath
  let tcl := Register tcl "for" CmdTag.tFor
  let tcl := Register tcl "foreach" CmdTag.tForEach
  let tcl := Register tcl "global" CmdTag.tGlobal
  let tcl := Register tcl "if" CmdTag.tIf
  let tcl := Register tcl "info" CmdTag.tInfo
  let tcl := Register tcl "incr" CmdTag.tIncr
  let tcl := Register tcl "join" CmdTag.tJoin
  let tcl := Register tcl "lappend" CmdTag.tLAppend
  let tcl := Register tcl "lindex" CmdTag.tLIndex
  let tcl := Register tcl "linsert" CmdTag.tLInsert
  let tcl := Register tcl "list" CmdTag.tList
  let tcl := Register tcl "llength" CmdTag.tLLength
  let tcl := Register tcl "lrange" CmdTag.tLRange
  let tcl := Register tcl "lreplace" CmdTag.tLReplace
  let tcl := Register tcl "lsearch" CmdTag.tLSearch
  let tcl := Register tcl "lset" CmdTag.tLSet
  let tcl := Register tcl "lsort" CmdTag.tLSort
  let tcl := Register tcl "ne" CmdTag.tNotEqual
  let tcl := Register tcl "proc" CmdTag.tProc
  let tcl := Register tcl "puts" CmdTag.tPuts
  let tcl := Register tcl "rename" CmdTag.tRename
  let tcl := Register tcl "return" CmdTag.tReturn
  let tcl := Register tcl "set" CmdTag.tSet
  let tcl := Register tcl "split" CmdTag.tSplit
  let tcl := Register tcl "string" CmdTag.tString
  let tcl := Register tcl "subst" CmdTag.tSubst
  let tcl := Register tcl "switch" CmdTag.tSwitch
  let tcl := Register tcl "uplevel" CmdTag.tUpLevel
  let tcl := Register tcl "upvar" CmdTag.tUpVar
  let tcl := Register tcl "unset" CmdTag.tUnSet
  let tcl := Register tcl "variable" CmdTag.tVariable
  Register tcl "while" CmdTag.tWhile

/-- NewTCL from tcl.go: a fresh interpreter with an empty root frame and
the command table initialised. -/
def NewTCL : Tcl :=
  tclInitCommands
    { cur := { level := 0 }
      parents := []
      level := 0
      cells := []
      cmds := []
      result := "" }

/-! ## Commands under verification (basic.go, first variant) -/

/-- cmdCatch from basic.go lines 88-100: evaluate the script argument,
store the inner result into the optional variable, and report ok with the
result 0 for an ok inner status and 1 for any other status. -/
def cmdCatch (ev : EvT) (tcl : Tcl) (args : List String) : Option (Int × Tcl) :=
  if args.length < 2 ∨ args.length > 3 then
    some (SetResult tcl RetError "catch script ?varName")
  else
    match ev tcl (args.getD 1 "") {} with
    | none => none
    | some (ret, tcl) =>
        let tcl :=
          if args.length = 3 then SetVarValue tcl (args.getD 2 "") tcl.result else tcl
        if ret ≠ RetOk then some (SetResult tcl RetOk "1")
        else some (SetResult tcl RetOk "0")

/-- The linking loop of cmdUpVar (basic.go lines 233-240): for each
origin-name/new-name pair, look the origin up in the addressed frame and,
when present, bind the new name in the current frame to the same cell with
the local flag cleared.  The addressed frame is re-read from the updated
state each iteration, as the Go code reads through a frame pointer. -/
def upvarLoopGo (fuel : Nat) (tcl : Tcl) (idx : Nat) (args : List String) (v : Nat) :
    Tcl :=
  match fuel with
  | 0 => tcl
  | fuel + 1 =>
      if v + 1 < args.length then
        let env := (frames tcl).getD idx {}
        let tcl :=
          match lookupA env.vars (args.getD v "") with
          | some cell =>
              { tcl with cur := { tcl.cur with
                  vars := insertA tcl.cur.vars (args.getD (v + 1) "") cell
                  local_ := insertA tcl.cur.local_ (args.getD (v + 1) "") false } }
          | none => tcl
        upvarLoopGo fuel tcl idx args (v + 2)
      else tcl

/-- Entry point of the linking loop with sufficient fuel. -/
def upvarLoop (tcl : Tcl) (idx : Nat) (args : List String) (v : Nat) : Tcl :=
  upvarLoopGo (args.length + 2) tcl idx args v

/-- cmdUpVar from basic.go lines 204-242: resolve the optional level word
(a leading sharp makes it top-relative; reading the first byte of an empty
level word is a Go fault), address the frame, and run the linking loop. -/
def cmdUpVar (tcl : Tcl) (args : List String) : Option (Int × Tcl) :=
  if args.length < 3 then
    some (SetResult tcl RetError "upvar ?level varname var ?otherVar myVar")
  else if args.length > 3 then
    match (args.getD 1 "").data with
    | [] => none
    | c :: _ =>
        let top := c = '#'
        let pos := if c = '#' then 1 else 0
        let (lvl, _, ok) := ConvertStringToNumber (args.getD 1 "") 10 pos
        if ¬ok then some (SetResult tcl RetError "not valid level number")
        else
          match getLevel tcl top lvl with
          | none => some (SetResult tcl RetError "not valid level number")
          | some idx => some (SetResult (upvarLoop tcl idx args 2) RetOk "")
  else
    match getLevel tcl false 1 with
    | none => some (SetResult tcl RetError "not valid level number")
    | some idx => some (SetResult (upvarLoop tcl idx args 1) RetOk "")

/-- The parameter-binding loop of userProc (basic.go lines 164-175): each
formal name takes the next actual argument as a fresh local cell in the
frame under construction.  An empty formal name stops the binding.  The
special branch for a trailing args formal compares the zero-based position
i against the length of the formal list, a condition that can never hold
inside the loop, so it is dead code; when the actuals run out the normal
branch indexes past the end of args, a Go fault (none). -/
def userProcBindGo (fuel : Nat) (tcl : Tcl) (env : tclEnv) (args : List String)
    (argList : List String) (i : Nat) (argNum : Nat) : Option (Tcl × tclEnv) :=
  match fuel with
  | 0 => none
  | fuel + 1 =>
      if i < argList.length then
        let name := argList.getD i ""
        if name = "" then some (tcl, env)
        else if name = "args" ∧ i = argList.length then
          some (setVarNewEnv tcl env "args" (" ".intercalate (args.drop argNum)) true)
        else if argNum < args.length then
          let te := setVarNewEnv tcl env name (args.getD argNum "") true
          userProcBindGo fuel te.1 te.2 args argList (i + 1) (argNum + 1)
        else none
      else some (tcl, env)

/-- Entry point of the binding loop with sufficient fuel. -/
def userProcBind (tcl : Tcl) (env : tclEnv) (args : List String)
    (argList : List String) (i : Nat) (argNum : Nat) : Option (Tcl × tclEnv) :=
  userProcBindGo (argList.length + 2) tcl env args argList i argNum

/-- userProc from basic.go lines 157-186: build the callee frame by parsing
the stored formal list and binding the actuals, record the argument trace,
push the frame, evaluate the body, pop, and translate a return status into
ok. -/
def userProc (ev : EvT) (tcl : Tcl) (args : List String) (params body : String) :
    Option (Int × Tcl) :=
  let env0 := newEnv tcl
  match ParseArgs params with
  | none => none
  | some argList =>
      match userProcBind tcl env0 args argList 0 1 with
      | none => none
      | some (tcl, env) =>
          let env := { env with args := " ".intercalate args }
          let tcl := pushEnv tcl env
          match ev tcl body {} with
          | none => none
          | some (ret, tcl) =>
              match popEnv tcl with
              | none => none
              | some tcl => some ((if ret = RetReturn then RetOk else ret), tcl)

/-- cmdRename from basic.go lines 340-353: look the old name up, overwrite
its table slot with a nil handler pointer (the key stays present), and when
a new name was given store the old entry under it; the empty new name of a
removal request stores the entry under the empty-string key. -/
def cmdRename (tcl : Tcl) (args : List String) : Int × Tcl :=
  if args.length < 2 ∨ args.length > 3 then
    SetResult tcl RetError "rename OldName ?newName"
  else
    match lookupA tcl.cmds (args.getD 1 "") with
    | none => SetResult tcl RetError ("command " ++ args.getD 1 "" ++ " not found")
    | some cmd =>
        let tcl := { tcl with cmds := insertA tcl.cmds (args.getD 1 "") none }
        let tcl :=
          if args.length = 3 then
            { tcl with cmds := insertA tcl.cmds (args.getD 2 "") cmd }
          else tcl
        SetResult tcl RetOk ""

/-! ## The expr command (basic.go cmdMath, stringCmp, binaryOp) -/

/-- relationOprs from basic.go lines 577-584. -/
def relationOprs (s : String) : Bool :=
  s = ">" ∨ s = ">=" ∨ s = "<" ∨ s = "<=" ∨ s = "==" ∨ s = "!="

/-- Lexicographic three-way comparison of character lists, the behaviour of
strings.Compare. -/
def cmpChars (a b : List Char) : Int :=
  match a, b with
  | [], [] => 0
  | [], _ :: _ => -1
  | _ :: _, [] => 1
  | x :: xs, y :: ys => if x < y then -1 else if y < x then 1 else cmpChars xs ys

/-- strings.Compare on the string type. -/
def goCompare (a b : String) : Int :=
  cmpChars a.data b.data

/-- stringCmp from basic.go lines 586-618: compare the first and third
argument words as strings under the relational operator in the middle word,
producing 0 or 1. -/
def stringCmp (tcl : Tcl) (args : List String) : Int × Tcl :=
  let cmp := goCompare (args.getD 1 "") (args.getD 3 "")
  let opr := args.getD 2 ""
  let ret :=
    if opr = ">" then (if cmp > 0 then "1" else "0")
    else if opr = ">=" then (if cmp ≥ 0 then "1" else "0")
    else if opr = "<" then (if cmp < 0 then "1" else "0")
    else if opr = "<=" then (if cmp ≤ 0 then "1" else "0")
    else if opr = "==" then (if cmp = 0 then "1" else "0")
    else if opr = "!=" then (if cmp ≠ 0 then "1" else "0")
    else "0"
  SetResult tcl RetOk ret

/-- Outcome of an operator evaluation: a Go fault (division by zero), an
unknown operator, or a value. -/
inductive OpRes where
  | fault : OpRes
  | bad : OpRes
  | val : Int → OpRes
deriving DecidableEq, Repr

/-- The binary-operator switch of binaryOp (basic.go lines 621-684), with
Go wrap-around arithmetic; division by zero is a Go fault. -/
def binOpVal (opr : String) (aval bval : Int) : OpRes :=
  if opr = "+" then OpRes.val (wrap64 (aval + bval))
  else if opr = "-" then OpRes.val (wrap64 (aval - bval))
  else if opr = "*" then OpRes.val (wrap64 (aval * bval))
  else if opr = "/" then
    if bval = 0 then OpRes.fault else OpRes.val (wrap64 (aval.tdiv bval))
  else if opr = "and" then OpRes.val (land64 aval bval)
  else if opr = "or" then OpRes.val (lor64 aval bval)
  else if opr = "xor" then OpRes.val (lxor64 aval bval)
  else if opr = "max" then OpRes.val (if aval < bval then bval else aval)
  else if opr = "min" then OpRes.val (if aval > bval then bval else aval)
  else if opr = ">" then OpRes.val (if aval > bval then 1 else 0)
  else if opr = ">=" then OpRes.val (if aval ≥ bval then 1 else 0)
  else if opr = "<" then OpRes.val (if aval < bval then 1 else 0)
  else if opr = "<=" then OpRes.val (if aval ≤ bval then 1 else 0)
  else if opr = "==" then OpRes.val (if aval = bval then 1 else 0)
  else if opr = "!=" then OpRes.val (if aval ≠ bval then 1 else 0)
  else OpRes.bad

/-- binaryOp from basic.go: evaluate the operator and format the result in
base 10, or report the invalid-operator error. -/
def binaryOp (tcl : Tcl) (opr : String) (aval bval : Int) : Option (Int × Tcl) :=
  match binOpVal opr aval bval with
  | OpRes.fault => none
  | OpRes.bad => some (SetResult tcl RetError "invalid operator")
  | OpRes.val r =>
      match ConvertNumberToString r 10 with
      | none => none
      | some s => some (SetResult tcl RetOk s)

/-- The unary-operator switch of cmdMath (basic.go lines 752-774).  The abs
case negates the first accumulator rather than the operand, and bool leaves
the first accumulator when the operand is zero, as the source does. -/
def unaryOpVal (opr : String) (aval bval : Int) : OpRes :=
  if opr = "-" ∨ opr = "neg" then OpRes.val (wrap64 (-bval))
  else if opr = "not" then OpRes.val (if bval = 0 then 1 else 0)
  else if opr = "inv" then OpRes.val (wrap64 (-bval - 1))
  else if opr = "abs" then OpRes.val (if bval < 0 then wrap64 (-aval) else aval)
  else if opr = "bool" then OpRes.val (if bval ≠ 0 then 1 else aval)
  else if opr = "+" ∨ opr = "" then OpRes.val aval
  else OpRes.bad

/-- The space-skipping loop of cmdMath (basic.go lines 712-718). -/
def mathSkipGo (fuel : Nat) (s : List Char) (pos : Nat) : Nat :=
  match fuel with
  | 0 => pos
  | fuel + 1 =>
      if pos < s.length then
        if ¬goIsSpace (charAt s pos) then pos else mathSkipGo fuel s (pos + 1)
      else pos

/-- Entry point of the space skip with sufficient fuel. -/
def mathSkip (s : List Char) (pos : Nat) : Nat :=
  mathSkipGo (s.length + 2) s pos

/-- The operator-collecting loop of cmdMath (basic.go lines 721-728):
gather characters until a digit or a space. -/
def mathOprGo (fuel : Nat) (s : List Char) (pos : Nat) (opr : String) :
    String × Nat :=
  match fuel with
  | 0 => (opr, pos)
  | fuel + 1 =>
      if pos < s.length then
        let c := charAt s pos
        if goIsDigit c ∨ goIsSpace c then (opr, pos)
        else mathOprGo fuel s (pos + 1) (opr.push c)
      else (opr, pos)

/-- Entry point of the operator collection with sufficient fuel. -/
def mathOpr (s : List Char) (pos : Nat) (opr : String) : String × Nat :=
  mathOprGo (s.length + 2) s pos opr

/-- cmdMath from basic.go lines 691-778: lower-case and join the argument
words, re-evaluate them with noEval so substitutions happen, then parse the
result as operand, operator, operand.  The string-comparison fallback runs
when the first operand fails to parse, or when the second does, provided
the original argument vector has exactly four words with a relational
middle word. -/
def cmdMathAfter (tcl : Tcl) (args : List String) : Option (Int × Tcl) :=
  let str := tcl.result
  let (aval, pos, binary) := ConvertStringToNumber str 10 0
  if ¬binary ∧ args.length = 4 ∧ relationOprs (args.getD 2 "") then
    some (stringCmp tcl args)
  else
    let pos := mathSkip str.data pos
    let oprPos := mathOpr str.data pos ""
    let opr := oprPos.1
    if opr = "" then
      if binary then
        match ConvertNumberToString aval 10 with
        | none => none
        | some s => some (SetResult tcl RetOk s)
      else some (SetResult tcl RetError "operator not specified")
    else
      let (v, _, ok) := ConvertStringToNumber tcl.result 10 oprPos.2
      if ¬ok then
        if args.length = 4 ∧ relationOprs (args.getD 2 "") then
          some (stringCmp tcl args)
        else some (SetResult tcl RetError "not a number")
      else
        if binary then binaryOp tcl opr aval v
        else
          match unaryOpVal opr aval v with
          | OpRes.fault => none
          | OpRes.bad => some (SetResult tcl RetError "invalid operator")
          | OpRes.val a =>
              match ConvertNumberToString a 10 with
              | none => none
              | some s => some (SetResult tcl RetOk s)

/-- cmdMath, entry half: join and lower-case the arguments, run the noEval
evaluation, propagate a non-ok status, and hand the result state to the
parsing half above. -/
def cmdMath (ev : EvT) (tcl : Tcl) (args : List String) : Option (Int × Tcl) :=
  let str0 := goToLower (" ".intercalate (args.drop 1))
  match ev tcl str0 { noEval := true } with
  | none => none
  | some (r, tcl) =>
      if r ≠ RetOk then some (r, tcl)
      else cmdMathAfter tcl args

/-- Spec-side variant of cmdMath, written from the specification sentence
that no string-comparison fallback exists for argument vectors that are not
exactly four words: both fallback branches are removed, the first by
continuing and the second by reporting the not-a-number error.  Used to
state that cmdMath never reaches its fallback for other argument counts. -/
def cmdMathNoFallbackAfter (tcl : Tcl) (args : List String) : Option (Int × Tcl) :=
  let str := tcl.result
  let (aval, pos, binary) := ConvertStringToNumber str 10 0
  let pos := mathSkip str.data pos
  let oprPos := mathOpr str.data pos ""
  let opr := oprPos.1
  if opr = "" then
    if binary then
      match ConvertNumberToString aval 10 with
      | none => none
      | some s => some (SetResult tcl RetOk s)
    else some (SetResult tcl RetError "operator not specified")
  else
    let (v, _, ok) := ConvertStringToNumber tcl.result 10 oprPos.2
    if ¬ok then some (SetResult tcl RetError "not a number")
    else
      if binary then binaryOp tcl opr aval v
      else
        match unaryOpVal opr aval v with
        | OpRes.fault => none
        | OpRes.bad => some (SetResult tcl RetError "invalid operator")
        | OpRes.val a =>
            match ConvertNumberToString a 10 with
            | none => none
            | some s => some (SetResult tcl RetOk s)

/-- Entry half of the spec-side variant, parallel to cmdMath. -/
def cmdMathNoFallback (ev : EvT) (tcl : Tcl) (args : List String) :
    Option (Int × Tcl) :=
  let str0 := goToLower (" ".intercalate (args.drop 1))
  match ev tcl str0 { noEval := true } with
  | none => none
  | some (r, tcl) =>
      if r ≠ RetOk then some (r, tcl)
      else cmdMathNoFallbackAfter tcl args

/-! ## Fixtures used by witnesses and counterexamples -/

/-- A trivial eval oracle: succeed and leave the state unchanged. -/
def evNull : EvT := fun t _ _ => some (RetOk, t)

/-- A trivial dispatch oracle. -/
def doNull : DoT := fun t _ => some (RetOk, t)

/-- A trivial command runner for doCommand. -/
def runNull : tclCmd → Tcl → List String → Option (Int × Tcl) :=
  fun _ t _ => some (RetOk, t)

/-- An eval oracle that fails with a fixed message, standing for a script
whose evaluation errors. -/
def evErrBoom : EvT := fun t _ _ => some (RetError, { t with result := "boom" })

/-- An eval oracle returning a fixed result string, standing for a noEval
pass that produced that text. -/
def evConst (s : String) : EvT := fun t _ _ => some (RetOk, { t with result := s })

/-- An eval oracle that records the value of the variable args visible in
the state it is handed; running a procedure body under it reports what the
binding loop bound to args. -/
def evArgsObserver : EvT :=
  fun t _ _ => some (RetOk, { t with result := (GetVarValue t "args").2 })

/-- A two-frame interpreter state at level one with no variables. -/
def twoFrames : Tcl :=
  { cur := {}, parents := [{}], level := 1, cells := [], cmds := [], result := "" }

/-- A two-frame state whose caller frame binds x to cell zero. -/
def callerX : Tcl :=
  { cur := {}
    parents := [{ vars := [("x", 0)] }]
    level := 1
    cells := ["init"]
    cmds := []
    result := "" }

/-- Characters with no special meaning to the tokenizer, to StringEscape or
to the word-gluing of eval: not a blank, line end, semicolon, comment lead,
bracket, dollar, backslash, brace, double quote, vertical tab or NUL.  A
word made only of such characters is carried through list formatting and
re-parsing unchanged. -/
def plainWordChar (c : Char) : Prop :=
  c ≠ ' ' ∧ c ≠ '\t' ∧ c ≠ '\n' ∧ c ≠ '\r' ∧ c ≠ Char.ofNat 11 ∧ c ≠ ';' ∧
    c ≠ '#' ∧ c ≠ '[' ∧ c ≠ ']' ∧ c ≠ '$' ∧ c ≠ '\\' ∧ c ≠ '{' ∧ c ≠ '}' ∧
    c ≠ '"' ∧ c ≠ Char.ofNat 0

instance (c : Char) : Decidable (plainWordChar c) := by
  unfold plainWordChar
  infer_instance

/-- A state whose frame chain starts with a callee frame over a caller
frame, with the given remaining chain, level, heap, command table and
result. -/
def chainState (callee caller : tclEnv) (rest : List tclEnv) (lvl : Int)
    (cells : List String) (cmds : List (String × Option tclCmd)) (res : String) :
    Tcl :=
  { cur := callee
    parents := caller :: rest
    level := lvl
    cells := cells
    cmds := cmds
    result := res }

/-- Canonical scanner state over input s at position j: the parser as it
stands while the token loops walk a word that began at position zero. -/
@[reducible] def scanState (s : List Char) (j : Nat) (O : parserOptions) : parser :=
  { str := s, pos := j, nextPos := j + 1, char := charAt s j, start := 0, end_ := 0,
    inQuote := false, token := tokEOL, options := O }

/-- The parser state after the scan walks off the end of the input. -/
@[reducible] def endState (s : List Char) (O : parserOptions) : parser :=
  { str := s, pos := s.length, nextPos := s.length, char := Char.ofNat 0, start := 0,
    end_ := 0, inQuote := false, token := tokEOL, options := O }

/-- The parser state after strLoop closes the word token spanning the whole
input. -/
@[reducible] def finState (s : List Char) (O : parserOptions) : parser :=
  { str := s, pos := s.length, nextPos := s.length, char := Char.ofNat 0, start := 0,
    end_ := s.length, inQuote := false, token := tokEscape, options := O }

/-- The parser state after the end-of-line token that follows the word. -/
@[reducible] def eolState (s : List Char) (O : parserOptions) : parser :=
  { finState s O with token := tokEOL }

/-! ## Helper lemmas -/

/-- Looking up the key just inserted finds the inserted value. -/
theorem lookupA_insertA_self {α : Type} (m : List (String × α)) (k : String) (v : α) :
    lookupA (insertA m k v) k = some v := by
  induction m with
  | nil => simp [insertA, lookupA]
  | cons hd tl ih =>
      by_cases h : hd.1 = k
      · simp [insertA, h, lookupA]
      · simp [insertA, h, lookupA, ih]

/-- Looking up a different key passes the insertion through. -/
theorem lookupA_insertA_ne {α : Type} (m : List (String × α)) (k k' : String) (v : α)
    (h : k ≠ k') : lookupA (insertA m k v) k' = lookupA m k' := by
  induction m with
  | nil => simp [insertA, lookupA, h]
  | cons hd tl ih =>
      by_cases hh : hd.1 = k
      · simp [insertA, hh, lookupA, h]
      · simp [insertA, hh, lookupA, ih]

/-- Reading the element just written by List.set. -/
theorem getD_set_self (l : List String) (i : Nat) (v d : String) (h : i < l.length) :
    (l.set i v).getD i d = v := by
  induction l generalizing i with
  | nil => simp at h
  | cons hd tl ih =>
      cases i with
      | zero => simp [List.set, List.getD]
      | succ j =>
          simp only [List.set, List.length_cons] at h ⊢
          simpa [List.getD] using ih j (by omega)

/-- Optional read of the element just written by List.set. -/
theorem get?_set_self (l : List String) (i : Nat) (v : String) (h : i < l.length) :
    (l.set i v)[i]? = some v := by
  induction l generalizing i with
  | nil => simp at h
  | cons hd tl ih =>
      cases i with
      | zero => simp [List.set]
      | succ j =>
          simp only [List.length_cons] at h
          simp [List.set]
          exact ih j (by omega)

/-- Reading the element just appended at the old length. -/
theorem getD_append_self (l : List String) (v d : String) :
    (l ++ [v]).getD l.length d = v := by
  induction l with
  | nil => simp [List.getD]
  | cons hd tl ih =>
      simp only [List.cons_append, List.length_cons]
      exact ih

/-- Reading back a variable right after SetVarValue yields the stored value,
provided any pre-existing binding points into the heap (which every state
the interpreter builds satisfies). -/
theorem GetVarValue_SetVarValue (t : Tcl) (n v : String)
    (h : ∀ i, lookupA t.cur.vars n = some i → i < t.cells.length) :
    GetVarValue (SetVarValue t n v) n = (RetOk, v) := by
  unfold GetVarValue SetVarValue
  cases hl : lookupA t.cur.vars n with
  | some i =>
      simp only [hl]
      rw [getD_set_self _ _ _ _ (h i hl)]
  | none =>
      simp only [hl, lookupA_insertA_self]
      rw [getD_append_self]

/-! ## Claim theorems -/

/-- Claim C10: empty input is short-circuited at the public interface.
eval of the empty string returns ok with an empty last result without
constructing a parser, for every instantiation of the recursive oracles,
every state and every option set; ParseArgs of the empty string returns the
one-element list holding the empty word; and newParser, whose first
statement indexes the first character, faults on the empty string, so these
entry points never hand it one. -/
theorem C10_empty_input_shortcircuit :
    (∀ (evO : EvT) (doO : DoT) (tcl : Tcl) (opts : parserOptions),
      evalGen evO doO tcl "" opts = some (RetOk, { tcl with result := "" })) ∧
    ParseArgs "" = some [""] ∧
    (∀ opts : parserOptions, newParser [] opts = none) := by
  refine ⟨fun evO doO tcl opts => rfl, rfl, fun opts => rfl⟩

/-- Claim C9, counterexample: with the empty pattern and a zero depth
budget, Match returns 0 (and 1 on a nonempty target), not a negative
value: the empty-pattern return precedes the budget check, so the claim
that a zero budget always yields a negative result is false as stated. -/
theorem C9_cex :
    GoMatch [] [] false 0 = some 0 ∧ GoMatch [] ['x'] false 0 = some 1 ∧
    ¬((0 : Int) < 0) := by
  refine ⟨by rw [GoMatch]; rfl, by rw [GoMatch]; rfl, by decide⟩

/-- Claim C9, amended: the matcher is total for every budget (it is defined
here by well-founded recursion: the only self-recursion, in the star case,
hands the call a strictly shorter pattern along with the decremented
budget, and each loop step advances an index), and a zero budget returns
-1 for every nonempty pattern; the empty pattern returns 0 or 1 before the
budget is consulted. -/
theorem C9_amended (pat target : List Char) (ic : Bool) (h : pat ≠ []) :
    GoMatch pat target ic 0 = some (-1) := by
  rw [GoMatch]
  simp [h]

/-- Witness for C9_amended at a concrete pattern and target. -/
theorem C9_amended_witness :
    ("ab".data ≠ []) ∧ GoMatch "ab".data "xyz".data false 0 = some (-1) :=
  ⟨by decide, C9_amended "ab".data "xyz".data false (by decide)⟩

set_option maxRecDepth 40000 in
/-- Claim C6: the integer round trip fails outside base 10.  The digit loop
of ConvertNumberToString prepends each digit in front of the whole
accumulated result, so the digits land before the "0" or "0x" prefix:
formatting 5 in base 8 yields "50", which parses back as decimal 50, and
formatting 255 in base 16 yields "ff0x"; formatting a negative number in
base 8 or 16 indexes the digit table with a negative remainder, a Go
runtime fault.  This contradicts the documented contract that
ConvertStringToNumber can convert the result back. -/
theorem C6_roundtrip_broken :
    ConvertNumberToString 5 8 = some "50" ∧
    ConvertStringToNumber "50" 10 0 = (50, 2, true) ∧
    (50 : Int) ≠ 5 ∧
    ConvertNumberToString 255 16 = some "ff0x" ∧
    (ConvertStringToNumber "ff0x" 10 0).2.2 = false ∧
    ConvertNumberToString (-5) 8 = none ∧
    ConvertNumberToString 5 10 = some "5" ∧
    ConvertStringToNumber "5" 10 0 = (5, 1, true) := by decide

set_option maxRecDepth 40000 in
/-- Claim C5: the trailing-args collection branch of the user-procedure
binding loop is dead code.  Its guard compares the zero-based position of
the formal name args with the length of the formal list, which never holds
inside the loop, so a procedure with formals a args called with surplus
arguments binds args to just the next actual (here "2", not "2 3"), and
called with no surplus it indexes past the end of the actuals, a Go
runtime fault, instead of binding the empty string. -/
theorem C5_args_collection_dead :
    ParseArgs "a args" = some ["a", "args"] ∧
    (userProc evArgsObserver NewTCL ["p", "1", "2", "3"] "a args" "body").map
        (fun p => (p.1, p.2.result)) = some (RetOk, "2") ∧
    ("2" : String) ≠ "2 3" ∧
    userProc evArgsObserver NewTCL ["p", "1"] "a args" "body" = none := by decide

set_option maxRecDepth 40000 in
/-- Claim C7: rename does not delete the old command entry; it overwrites
the table slot with a stored nil handler, so the key stays present and a
later dispatch of the old name dereferences the nil pointer (a Go runtime
fault) instead of failing with the unable-to-find error; the removal form
with the empty new name additionally files the old entry under the
empty-string key.  The move form does hand the new name the original
handler.  Dispatch of a genuinely absent name does produce the
unable-to-find error, which is what rename removal was documented to
leave behind. -/
theorem C7_rename_keeps_nil_entry :
    (cmdRename NewTCL ["rename", "incr", ""]).1 = RetOk ∧
    lookupA (cmdRename NewTCL ["rename", "incr", ""]).2.cmds "incr" = some none ∧
    doCommand runNull (cmdRename NewTCL ["rename", "incr", ""]).2 ["incr", "x"] =
      none ∧
    lookupA (cmdRename NewTCL ["rename", "incr", ""]).2.cmds "" =
      some (some { fn := CmdTag.tIncr }) ∧
    (doCommand runNull NewTCL ["gone"]).map (fun p => (p.1, p.2.result)) =
      some (RetError, "unable to find command: gone") ∧
    lookupA (cmdRename NewTCL ["rename", "incr", "add1"]).2.cmds "add1" =
      some (some { fn := CmdTag.tIncr }) ∧
    lookupA (cmdRename NewTCL ["rename", "incr", "add1"]).2.cmds "incr" =
      some none := by decide

/-- The walk loop of getLevel lands on the requested index clamped to the
last frame of the chain. -/
theorem getLevelWalk_eq (chainLen : Nat) (h : 0 < chainLen) :
    ∀ (rem idx : Nat), idx < chainLen →
      getLevelWalk chainLen idx rem = min (idx + rem) (chainLen - 1) := by
  intro rem
  induction rem with
  | zero =>
      intro idx hidx
      simp [getLevelWalk]
      omega
  | succ n ih =>
      intro idx hidx
      rw [getLevelWalk]
      by_cases hstep : idx + 1 < chainLen
      · rw [if_pos hstep, ih (idx + 1) hstep]
        omega
      · rw [if_neg hstep]
        omega

set_option maxRecDepth 40000 in
/-- Claim C8, counterexample: frame lookup does not return null when a
non-top-relative request exceeds the current depth; the walk stops at the
root.  In a two-frame chain at depth one, requesting five levels up yields
the root frame (index 1), not null. -/
theorem C8_cex :
    getLevel twoFrames false 5 = some 1 ∧ twoFrames.level = 1 ∧
    (frames twoFrames).length = 2 := by decide

/-- Claim C8, amended: frame lookup computes the effective level (the
current depth minus n in wrapping 64-bit Go arithmetic when top-relative,
n itself otherwise), returns null exactly when that effective level is
negative (in particular for top-relative requests above the current depth,
or when the subtraction overflows into the negative range), and otherwise
walks up that many parent links, stopping early at the root frame; a
non-top request beyond the chain yields the root frame rather than null. -/
theorem C8_amended (tcl : Tcl) (top : Bool) (n : Int) :
    (getLevel tcl top n = none ↔ (if top then wrap64 (tcl.level - n) else n) < 0) ∧
    (0 ≤ (if top then wrap64 (tcl.level - n) else n) →
      getLevel tcl top n =
        some (min (if top then wrap64 (tcl.level - n) else n).toNat
          tcl.parents.length)) := by
  constructor
  · unfold getLevel
    by_cases hneg : (if top then wrap64 (tcl.level - n) else n) < 0
    · simp [hneg]
    · simp [hneg]
  · intro hge
    unfold getLevel
    rw [if_neg (by omega)]
    rw [getLevelWalk_eq (tcl.parents.length + 1) (by omega) _ 0 (by omega)]
    simp

/-- Witness for C8_amended: in the two-frame chain, a non-top request for
five levels resolves to the root index, the minimum of five and the
parent count; and a top-relative request for the most negative 64-bit
level makes the wrapped subtraction negative, so the lookup reports an
invalid level exactly as the wrapping Go subtraction does. -/
theorem C8_amended_witness :
    (getLevel twoFrames false 5 =
      some (min ((5 : Int)).toNat twoFrames.parents.length)) ∧
    getLevel twoFrames true (-(2 ^ 63)) = none :=
  ⟨(C8_amended twoFrames false 5).2 (by decide),
   (C8_amended twoFrames true (-(2 ^ 63))).1.mpr (by decide)⟩

/-- The last result field does not take part in variable reads. -/
theorem GetVarValue_result_irrel (t : Tcl) (s n : String) :
    GetVarValue { t with result := s } n = GetVarValue t n := rfl

/-- Claim C2: catch always returns ok; its result string is 0 exactly when
the inner evaluation of the script returned ok and 1 for every other
status; and when a variable name is supplied, the inner evaluation's last
result is stored into that variable in the current frame.  Stated for
every eval oracle whose run of the script returns, so in particular for
the interpreter's own eval; the stored-value conjunct assumes any
pre-existing binding of the variable points into the heap, which every
state the interpreter builds satisfies. -/
theorem C2_catch_always_ok (ev : EvT) (tcl : Tcl) (args : List String)
    (r : Int) (t1 : Tcl)
    (h2 : 2 ≤ args.length) (h3 : args.length ≤ 3)
    (hev : ev tcl (args.getD 1 "") {} = some (r, t1)) :
    (cmdCatch ev tcl args).map (fun p => p.1) = some RetOk ∧
    (cmdCatch ev tcl args).map (fun p => p.2.result) =
      some (if r = RetOk then "0" else "1") ∧
    (args.length = 3 →
      (∀ i, lookupA t1.cur.vars (args.getD 2 "") = some i → i < t1.cells.length) →
      (cmdCatch ev tcl args).map (fun p => GetVarValue p.2 (args.getD 2 "")) =
        some (RetOk, t1.result)) := by
  have key : cmdCatch ev tcl args =
      some (SetResult
        (if args.length = 3 then SetVarValue t1 (args.getD 2 "") t1.result else t1)
        RetOk (if r = RetOk then "0" else "1")) := by
    unfold cmdCatch
    rw [if_neg (by omega), hev]
    by_cases hr : r = RetOk
    · simp [hr]
    · simp [hr]
  refine ⟨by rw [key]; rfl, by rw [key]; rfl, ?_⟩
  intro hlen3 hwf
  rw [key, if_pos hlen3]
  show some (GetVarValue
    (SetResult (SetVarValue t1 (args.getD 2 "") t1.result) RetOk
      (if r = RetOk then "0" else "1")).2 (args.getD 2 "")) = _
  rw [show ∀ (x : Tcl) (s : String), (SetResult x RetOk s).2 = { x with result := s }
    from fun x s => rfl]
  rw [GetVarValue_result_irrel]
  exact congrArg some (GetVarValue_SetVarValue t1 _ _ hwf)

/-- Witness for C2_catch_always_ok: a failing script run under catch with a
result variable yields ok with result 1 and stores the inner message. -/
theorem C2_catch_witness :
    (cmdCatch evErrBoom NewTCL ["catch", "error boom", "res"]).map (fun p => p.1) =
      some RetOk ∧
    (cmdCatch evErrBoom NewTCL ["catch", "error boom", "res"]).map
        (fun p => p.2.result) = some (if RetError = RetOk then "0" else "1") ∧
    (cmdCatch evErrBoom NewTCL ["catch", "error boom", "res"]).map
        (fun p => GetVarValue p.2 "res") =
      some (RetOk, ({ NewTCL with result := "boom" } : Tcl).result) := by
  have hnone : lookupA ({ NewTCL with result := "boom" } : Tcl).cur.vars
      (["catch", "error boom", "res"].getD 2 "") = none := by decide
  have h := C2_catch_always_ok evErrBoom NewTCL ["catch", "error boom", "res"]
    RetError { NewTCL with result := "boom" } (by decide) (by decide) rfl
  refine ⟨h.1, h.2.1, h.2.2 (by decide) ?_⟩
  intro i hi
  rw [hnone] at hi
  cases hi

/-- Observing a name through the first parent frame reduces to the shared
cell read when the parent binds the name. -/
theorem observe_parent1 (t : Tcl) (caller : tclEnv) (rest : List tclEnv)
    (n : String) (i : Nat) (v : String)
    (hp : t.parents = caller :: rest) (hl : lookupA caller.vars n = some i)
    (hc : t.cells[i]? = some v) :
    observeVar t 1 n = some v := by
  unfold observeVar frames
  rw [hp]
  simp only [List.getElem?_cons_succ, List.getElem?_cons_zero]
  simp only [hl, hc]

/-- SetVarValue on an already-bound name writes the bound cell in place. -/
theorem SetVarValue_existing (t : Tcl) (n : String) (i : Nat) (v : String)
    (h : lookupA t.cur.vars n = some i) :
    SetVarValue t n v = { t with cells := t.cells.set i v } := by
  unfold SetVarValue
  simp only [h]

/-- Claim C3: after upvar 1 x y runs in a callee frame whose caller frame
binds x to some heap cell, the two names share that one cell: upvar
returns ok and binds y in the callee to the very cell index of the
caller's x, so storing through y (SetVarValue in the callee) is observed
by a read of x through the caller frame, and writing the cell addressed by
the caller's x binding (what set x does there) is returned by a read of y
in the callee. -/
theorem C3_upvar_alias (callee caller : tclEnv) (rest : List tclEnv) (lvl : Int)
    (cells : List String) (cmds : List (String × Option tclCmd)) (res : String)
    (i : Nat) (hx : lookupA caller.vars "x" = some i) (hi : i < cells.length) :
    (cmdUpVar (chainState callee caller rest lvl cells cmds res)
        ["upvar", "1", "x", "y"]).map (fun p => p.1) = some RetOk ∧
    (cmdUpVar (chainState callee caller rest lvl cells cmds res)
        ["upvar", "1", "x", "y"]).map (fun p => lookupA p.2.cur.vars "y") =
      some (some i) ∧
    (∀ V, (cmdUpVar (chainState callee caller rest lvl cells cmds res)
        ["upvar", "1", "x", "y"]).map
          (fun p => observeVar (SetVarValue p.2 "y" V) 1 "x") = some (some V)) ∧
    (∀ V, (cmdUpVar (chainState callee caller rest lvl cells cmds res)
        ["upvar", "1", "x", "y"]).map
          (fun p => GetVarValue { p.2 with cells := p.2.cells.set i V } "y") =
      some (RetOk, V)) := by
  set t0 := chainState callee caller rest lvl cells cmds res with ht0
  have hpar : t0.parents.length = rest.length + 1 := by rw [ht0]; rfl
  have hlev : getLevel t0 false 1 = some 1 := by
    unfold getLevel
    rw [show (if (false = true) then wrap64 (t0.level - 1) else (1 : Int)) = (1 : Int)
      from rfl]
    rw [if_neg (by omega : ¬(1 : Int) < 0)]
    rw [show ((1 : Int).toNat) = 1 from rfl]
    unfold getLevelWalk
    rw [if_pos (by omega)]
    rfl
  have hloop : upvarLoop t0 1 ["upvar", "1", "x", "y"] 2 =
      { t0 with cur := { t0.cur with
          vars := insertA t0.cur.vars "y" i
          local_ := insertA t0.cur.local_ "y" false } } := by
    unfold upvarLoop
    simp only [List.length_cons, List.length_nil]
    simp [upvarLoopGo, ht0, chainState, frames, hx, List.getD]
  have hcv : ConvertStringToNumber "1" 10 0 = (1, 1, true) := by decide
  have key : cmdUpVar t0 ["upvar", "1", "x", "y"] =
      some (SetResult { t0 with cur := { t0.cur with
          vars := insertA t0.cur.vars "y" i
          local_ := insertA t0.cur.local_ "y" false } } RetOk "") := by
    unfold cmdUpVar
    rw [if_neg (by decide), if_pos (by decide)]
    rw [show ((["upvar", "1", "x", "y"].getD 1 "")) = "1" from rfl]
    rw [show ("1" : String).data = ['1'] from rfl]
    simp [hcv, hlev, hloop]
  refine ⟨by rw [key]; rfl, ?_, ?_, ?_⟩
  · rw [key]
    show some (lookupA (insertA t0.cur.vars "y" i) "y") = some (some i)
    rw [lookupA_insertA_self]
  · intro V
    rw [key]
    show some (observeVar (SetVarValue
      { t0 with
        cur := { t0.cur with
          vars := insertA t0.cur.vars "y" i
          local_ := insertA t0.cur.local_ "y" false }
        result := "" } "y" V) 1 "x") =
      some (some V)
    rw [SetVarValue_existing _ "y" i V (lookupA_insertA_self _ _ _)]
    rw [observe_parent1 _ caller rest "x" i V (by rw [ht0]; rfl) hx
      (by show (t0.cells.set i V)[i]? = some V
          rw [ht0]
          exact get?_set_self cells i V hi)]
  · intro V
    rw [key]
    show some (GetVarValue { t0 with
        cur := { t0.cur with
          vars := insertA t0.cur.vars "y" i
          local_ := insertA t0.cur.local_ "y" false }
        result := ""
        cells := t0.cells.set i V } "y") = some (RetOk, V)
    unfold GetVarValue
    simp only [lookupA_insertA_self]
    rw [ht0]
    show some (RetOk, (cells.set i V).getD i "") = some (RetOk, V)
    rw [getD_set_self cells i V "" hi]

/-- Witness for C3_upvar_alias in a concrete two-frame state whose caller
binds x to cell zero holding "init". -/
theorem C3_upvar_alias_witness :
    (cmdUpVar (chainState {} { vars := [("x", 0)] } [] 1 ["init"] [] "")
        ["upvar", "1", "x", "y"]).map (fun p => p.1) = some RetOk ∧
    (cmdUpVar (chainState {} { vars := [("x", 0)] } [] 1 ["init"] [] "")
        ["upvar", "1", "x", "y"]).map
      (fun p => observeVar (SetVarValue p.2 "y" "V42") 1 "x") = some (some "V42") ∧
    (cmdUpVar (chainState {} { vars := [("x", 0)] } [] 1 ["init"] [] "")
        ["upvar", "1", "x", "y"]).map
      (fun p => GetVarValue { p.2 with cells := p.2.cells.set 0 "V42" } "y") =
      some (RetOk, "V42") := by
  have h := C3_upvar_alias {} { vars := [("x", 0)] } [] 1 ["init"] [] "" 0
    (by decide) (by decide)
  exact ⟨h.1, h.2.2.1 "V42", h.2.2.2 "V42"⟩

/-- If the noEval evaluation yields a state, cmdMath reduces to its parsing
half on that state, or propagates a non-ok status. -/
theorem cmdMath_entry (ev : EvT) (tcl t1 : Tcl) (args : List String) (r : Int)
    (hev : ev tcl (goToLower (" ".intercalate (args.drop 1))) { noEval := true } =
      some (r, t1)) :
    cmdMath ev tcl args = if r ≠ RetOk then some (r, t1) else cmdMathAfter t1 args := by
  simp only [cmdMath, hev]

/-- The same reduction for the spec-side variant. -/
theorem cmdMathNoFallback_entry (ev : EvT) (tcl t1 : Tcl) (args : List String) (r : Int)
    (hev : ev tcl (goToLower (" ".intercalate (args.drop 1))) { noEval := true } =
      some (r, t1)) :
    cmdMathNoFallback ev tcl args =
      if r ≠ RetOk then some (r, t1) else cmdMathNoFallbackAfter t1 args := by
  simp only [cmdMathNoFallback, hev]

/-- When the argument vector is not four words with a relational middle word,
the parsing half of cmdMath agrees with the fallback-free variant. -/
theorem cmdMathAfter_noFallback (t : Tcl) (args : List String)
    (h : args.length ≠ 4 ∨ relationOprs (args.getD 2 "") = false) :
    cmdMathAfter t args = cmdMathNoFallbackAfter t args := by
  have hguard : ¬(args.length = 4 ∧ relationOprs (args.getD 2 "") = true) := by
    rcases h with h | h
    · exact fun hc => h hc.1
    · intro hc
      rw [h] at hc
      exact Bool.false_ne_true hc.2
  rcases hD : ConvertStringToNumber t.result 10 0 with ⟨aval, pos, b⟩
  rcases hD2 : ConvertStringToNumber t.result 10
      (mathOpr t.result.data (mathSkip t.result.data pos) "").2 with ⟨v, p2, ok⟩
  simp only [cmdMathAfter, cmdMathNoFallbackAfter, hD, hD2]
  split_ifs with h1 h2 h3 h4 h5 h6 <;> first
    | rfl
    | (exact absurd h1.2 hguard)
    | (exact absurd (by assumption) hguard)



/-- C4: the string-comparison fallback of expr.  (1) the fallback result is
always status ok with result "0" or "1"; (2) for argument vectors that are
not four words with a relational middle word, cmdMath agrees with the
fallback-free variant, so no fallback is attempted; (3) with four words and
a relational middle word, the fallback fires as soon as the first operand
fails to parse; (4) it also fires when the first operand parses but the
second fails after operator collection — contradicting the claim that both
operands must fail; (5) when the first operand parses and the operator is
empty or the second operand parses too, no fallback is attempted. -/
theorem C4_expr_fallback (ev : EvT) (tcl : Tcl) (args : List String) :
    ((stringCmp tcl args).1 = RetOk ∧
      ((stringCmp tcl args).2.result = "0" ∨ (stringCmp tcl args).2.result = "1")) ∧
    (args.length ≠ 4 ∨ relationOprs (args.getD 2 "") = false →
      cmdMath ev tcl args = cmdMathNoFallback ev tcl args) ∧
    (∀ r t1,
      ev tcl (goToLower (" ".intercalate (args.drop 1))) { noEval := true } =
        some (r, t1) →
      r = RetOk →
      (ConvertStringToNumber t1.result 10 0).2.2 = false →
      args.length = 4 → relationOprs (args.getD 2 "") = true →
      cmdMath ev tcl args = some (stringCmp t1 args)) ∧
    (∀ r t1 aval pos opr pos2,
      ev tcl (goToLower (" ".intercalate (args.drop 1))) { noEval := true } =
        some (r, t1) →
      r = RetOk →
      ConvertStringToNumber t1.result 10 0 = (aval, pos, true) →
      mathOpr t1.result.data (mathSkip t1.result.data pos) "" = (opr, pos2) →
      opr ≠ "" →
      (ConvertStringToNumber t1.result 10 pos2).2.2 = false →
      args.length = 4 → relationOprs (args.getD 2 "") = true →
      cmdMath ev tcl args = some (stringCmp t1 args)) ∧
    (∀ r t1 aval pos opr pos2,
      ev tcl (goToLower (" ".intercalate (args.drop 1))) { noEval := true } =
        some (r, t1) →
      r = RetOk →
      ConvertStringToNumber t1.result 10 0 = (aval, pos, true) →
      mathOpr t1.result.data (mathSkip t1.result.data pos) "" = (opr, pos2) →
      (opr = "" ∨ (ConvertStringToNumber t1.result 10 pos2).2.2 = true) →
      cmdMath ev tcl args = cmdMathNoFallback ev tcl args) := by
  refine ⟨?_, ?_, ?_, ?_, ?_⟩
  · simp only [stringCmp, SetResult]
    split_ifs <;> simp
  · intro h
    rcases hE : ev tcl (goToLower (" ".intercalate (args.drop 1)))
        { noEval := true } with _ | ⟨r, t1⟩
    · simp only [cmdMath, cmdMathNoFallback, hE]
    · rw [cmdMath_entry ev tcl t1 args r hE, cmdMathNoFallback_entry ev tcl t1 args r hE]
      by_cases hr : r = RetOk
      · rw [if_neg (fun hc => hc hr), if_neg (fun hc => hc hr)]
        exact cmdMathAfter_noFallback t1 args h
      · rw [if_pos hr, if_pos hr]
  · intro r t1 hev hr hfail hlen hrel
    rw [cmdMath_entry ev tcl t1 args r hev, if_neg (fun hc => hc hr)]
    rcases hD : ConvertStringToNumber t1.result 10 0 with ⟨aval, pos, b⟩
    rw [hD] at hfail
    have hb : b = false := hfail
    simp only [cmdMathAfter, hD]
    rw [if_pos ⟨fun hc => Bool.false_ne_true (hb ▸ hc), hlen, hrel⟩]
  · intro r t1 aval pos opr pos2 hev hr hD hopr hone hfail2 hlen hrel
    rw [cmdMath_entry ev tcl t1 args r hev, if_neg (fun hc => hc hr)]
    rcases hD2 : ConvertStringToNumber t1.result 10 pos2 with ⟨v, p2, ok⟩
    rw [hD2] at hfail2
    have hok : ok = false := hfail2
    simp only [cmdMathAfter, hD, hopr, hD2]
    rw [if_neg (by simp), if_neg hone, if_pos
      (fun hc => Bool.false_ne_true (hok ▸ hc)),
      if_pos ⟨hlen, hrel⟩]
  · intro r t1 aval pos opr pos2 hev hr hD hopr hcase
    rw [cmdMath_entry ev tcl t1 args r hev, cmdMathNoFallback_entry ev tcl t1 args r hev,
      if_neg (fun hc => hc hr), if_neg (fun hc => hc hr)]
    rcases hcase with h0 | hok2
    · simp only [cmdMathAfter, cmdMathNoFallbackAfter, hD, hopr]
      rw [if_neg (by simp), if_pos h0, if_pos h0]
    · rcases hD2 : ConvertStringToNumber t1.result 10 pos2 with ⟨v, p2, ok⟩
      rw [hD2] at hok2
      have hok : ok = true := hok2
      simp only [cmdMathAfter, cmdMathNoFallbackAfter, hD, hopr, hD2]
      rw [if_neg (by simp)]
      by_cases h0 : opr = ""
      · rw [if_pos h0, if_pos h0]
      · rw [if_neg h0, if_neg h0,
          if_neg (show ¬¬(ok = true) from fun hc => hc hok),
          if_neg (show ¬¬(ok = true) from fun hc => hc hok)]



set_option maxRecDepth 40000 in
/-- C4 counterexample: with arguments expr abc == 12 the second operand 12
parses as an integer, yet the real evaluator still falls back to string
comparison (status ok, result "0"), while the fallback-free variant reports
the not-a-number error — so the fallback does not require both operands to
fail. -/
theorem C4_cex :
    ConvertStringToNumber "12" 10 0 = (12, 2, true) ∧
    (cmdMath (evalGen evNull doNull) NewTCL ["expr", "abc", "==", "12"]).map
        (fun p => (p.1, p.2.result)) = some (RetOk, "0") ∧
    (cmdMathNoFallback (evalGen evNull doNull) NewTCL ["expr", "abc", "==", "12"]).map
        (fun p => (p.1, p.2.result)) = some (RetError, "not a number") := by
  decide

set_option maxRecDepth 40000 in
/-- Witness for C4_expr_fallback at concrete inputs: a five-word vector
agrees with the fallback-free variant, a failing first operand with a
passing second falls back, a passing first with a failing second falls
back as well, and two passing operands do not fall back. -/
theorem C4_expr_fallback_witness :
    cmdMath (evConst "abc == 12 5") NewTCL ["expr", "abc", "==", "12", "5"] =
      cmdMathNoFallback (evConst "abc == 12 5") NewTCL ["expr", "abc", "==", "12", "5"] ∧
    cmdMath (evConst "abc == 12") NewTCL ["expr", "abc", "==", "12"] =
      some (stringCmp { NewTCL with result := "abc == 12" } ["expr", "abc", "==", "12"]) ∧
    cmdMath (evConst "12 == abc") NewTCL ["expr", "12", "==", "abc"] =
      some (stringCmp { NewTCL with result := "12 == abc" } ["expr", "12", "==", "abc"]) ∧
    cmdMath (evConst "5 == 12") NewTCL ["expr", "5", "==", "12"] =
      cmdMathNoFallback (evConst "5 == 12") NewTCL ["expr", "5", "==", "12"] :=
  ⟨(C4_expr_fallback (evConst "abc == 12 5") NewTCL
      ["expr", "abc", "==", "12", "5"]).2.1 (Or.inl (by decide)),
   (C4_expr_fallback (evConst "abc == 12") NewTCL ["expr", "abc", "==", "12"]).2.2.1
      RetOk { NewTCL with result := "abc == 12" } rfl rfl (by decide) (by decide) (by decide),
   (C4_expr_fallback (evConst "12 == abc") NewTCL ["expr", "12", "==", "abc"]).2.2.2.1
      RetOk { NewTCL with result := "12 == abc" } 12 2 "==" 5 rfl rfl (by decide)
      (by decide) (by decide) (by decide) (by decide) (by decide),
   (C4_expr_fallback (evConst "5 == 12") NewTCL ["expr", "5", "==", "12"]).2.2.2.2
      RetOk { NewTCL with result := "5 == 12" } 5 1 "==" 4 rfl rfl (by decide)
      (by decide) (Or.inr (by decide))⟩

/-- newParser on a nonempty input is the canonical scanner state at zero. -/
theorem newParser_cons (c : Char) (cs : List Char) (O : parserOptions) :
    newParser (c :: cs) O = some (scanState (c :: cs) 0 O) := rfl

/-- Characters of a list are plain once every member is. -/
theorem charAt_plain (s : List Char) (j : Nat) (h : ∀ c ∈ s, plainWordChar c)
    (hj : j < s.length) : plainWordChar (charAt s j) := by
  have hmem : charAt s j ∈ s := by
    rw [charAt, List.getD_eq_getElem s _ hj]
    exact List.getElem_mem hj
  exact h _ hmem

/-- Advancing from position j lands on position j+1 when it is inside the
input and does not hold a backslash. -/
theorem pnext_scan (s : List Char) (O : parserOptions) (j : Nat)
    (hj : j + 1 < s.length) (hch : charAt s (j + 1) ≠ '\\') :
    pnext (scanState s j O) = scanState s (j + 1) O := by
  have h0 : pnext (scanState s j O) = pnextGo (s.length + 1 + 1) (scanState s j O) := rfl
  rw [h0]
  simp only [pnextGo]
  rw [if_pos hj, if_neg (fun hc => hch hc.1)]

/-- Advancing from the last position sets the end-of-input sentinel. -/
theorem pnext_scan_last (s : List Char) (O : parserOptions) (j : Nat)
    (hj : j + 1 = s.length) :
    pnext (scanState s j O) = endState s O := by
  have h0 : pnext (scanState s j O) = pnextGo (s.length + 1 + 1) (scanState s j O) := rfl
  rw [h0]
  simp only [pnextGo]
  rw [if_neg (show ¬(j + 1 < s.length) by omega), hj]

/-- strLoop at the end sentinel closes the escape token over the word. -/
theorem strLoop_end (s : List Char) (O : parserOptions) (fuel : Nat)
    (hf : 1 ≤ fuel) :
    strLoop fuel (endState s O) = some (true, finState s O) := by
  rcases fuel with _ | fuel
  · omega
  · simp only [strLoop]
    rw [if_pos trivial, if_neg Bool.false_ne_true]

/-- strLoop scans over plain characters to the end of the input, producing
the escape token that spans the whole word. -/
theorem strLoop_plain (s : List Char) (O : parserOptions)
    (h : ∀ c ∈ s, plainWordChar c) :
    ∀ fuel j, j < s.length → s.length - j + 1 ≤ fuel →
      strLoop fuel (scanState s j O) = some (true, finState s O) := by
  intro fuel
  induction fuel with
  | zero => intro j hj hf; omega
  | succ fuel ih =>
    intro j hj hf
    obtain ⟨h1, h2, h3, h4, h5, h6, h7, h8, h9, h10, h11, h12, h13, h14, h15⟩ :=
      charAt_plain s j h hj
    simp only [strLoop]
    rw [if_neg h15, if_neg h11, if_neg h10, if_neg h8,
      if_neg (fun hx => hx.elim h1 (fun hy => hy.elim h2 (fun hz => hz.elim h6 h3))),
      if_neg h14]
    by_cases hend : j + 1 < s.length
    · rw [pnext_scan s O j hend (charAt_plain s (j + 1) h hend).2.2.2.2.2.2.2.2.2.2.1]
      exact ih (j + 1) hend (by omega)
    · have hlast : j + 1 = s.length := by omega
      rw [pnext_scan_last s O j hlast]
      exact strLoop_end s O fuel (by omega)

/-- parseString on a plain word scans it whole into one escape token. -/
theorem parseString_plain (s : List Char) (O : parserOptions)
    (h : ∀ c ∈ s, plainWordChar c) (hne : 0 < s.length) :
    parseString (scanState s 0 O) = some (true, finState s O) := by
  obtain ⟨h1, h2, h3, h4, h5, h6, h7, h8, h9, h10, h11, h12, h13, h14, h15⟩ :=
    charAt_plain s 0 h hne
  simp only [parseString]
  rw [if_neg (fun hc => h12 hc.2.1), if_neg (fun hc => h14 hc.2)]
  show strLoop (2 * s.length + 4) (scanState s 0 O) = some (true, finState s O)
  exact strLoop_plain s O h (2 * s.length + 4) 0 hne (by omega)

/-- getToken on a plain word produces the escape token spanning it. -/
theorem getToken_word (s : List Char) (O : parserOptions)
    (h : ∀ c ∈ s, plainWordChar c) (hne : 0 < s.length) (fuel : Nat)
    (hf : 1 ≤ fuel) :
    getToken fuel (scanState s 0 O) = some (true, finState s O) := by
  rcases fuel with _ | fuel
  · omega
  · obtain ⟨h1, h2, h3, h4, h5, h6, h7, h8, h9, h10, h11, h12, h13, h14, h15⟩ :=
      charAt_plain s 0 h hne
    simp only [getToken]
    rw [if_pos h15,
      if_neg (fun hx => hx.elim h1 h2),
      if_neg (fun hx => hx.elim h3 (fun hy => hy.elim h4 h6)),
      if_neg h8, if_neg h10, if_neg h7]
    exact parseString_plain s O h hne

/-- getToken after the word reports the end-of-line token. -/
theorem getToken_fin (s : List Char) (O : parserOptions) (fuel : Nat)
    (hf : 1 ≤ fuel) :
    getToken fuel (finState s O) = some (true, eolState s O) := by
  rcases fuel with _ | fuel
  · omega
  · simp only [getToken]
    rw [if_neg (fun hc => hc rfl), if_pos ⟨by decide, by decide⟩]

/-- getToken after the end-of-line token reports the end of the input. -/
theorem getToken_eol (s : List Char) (O : parserOptions) (fuel : Nat)
    (hf : 1 ≤ fuel) :
    getToken fuel (eolState s O) = some (true, { eolState s O with token := tokEOF }) := by
  rcases fuel with _ | fuel
  · omega
  · simp only [getToken]
    rw [if_neg (fun hc => hc rfl), if_neg (fun hc => hc.1 rfl)]

/-- The token text of the whole-word escape token is the word itself. -/
theorem GetString_fin (s : List Char) (O : parserOptions) (hne : 0 < s.length) :
    GetString (finState s O) = String.mk s := by
  simp only [GetString]
  rw [if_neg (show ¬((0 : Nat) = s.length) by omega)]
  show String.mk ((s.drop 0).take (s.length - 0)) = String.mk s
  rw [List.drop_zero, Nat.sub_zero, List.take_length]

/-- The ParseArgs token loop on a plain word: collect exactly that word,
then consume the end-of-line and end-of-file tokens. -/
theorem parseArgsLoop_plain (s : List Char) (O : parserOptions) (res : List String)
    (h : ∀ c ∈ s, plainWordChar c) (hne : 0 < s.length) (fuel : Nat)
    (hf : 3 ≤ fuel) :
    parseArgsLoop fuel (scanState s 0 O) res = some (res ++ [String.mk s]) := by
  obtain ⟨k, rfl⟩ : ∃ k, fuel = k + 1 + 1 + 1 := ⟨fuel - 3, by omega⟩
  have hg1 : getToken (2 * (scanState s 0 O).str.length + 8) (scanState s 0 O) =
      some (true, finState s O) := getToken_word s O h hne _ (by omega)
  have hg2 : getToken (2 * (finState s O).str.length + 8) (finState s O) =
      some (true, eolState s O) := getToken_fin s O _ (by omega)
  have hg3 : getToken (2 * (eolState s O).str.length + 8) (eolState s O) =
      some (true, { eolState s O with token := tokEOF }) := getToken_eol s O _ (by omega)
  have ht1 : ((finState s O).token = tokEOF) = False :=
    eq_false (show ¬((2 : Int) = 9) by decide)
  have ht2 : ((finState s O).token = tokString ∨ (finState s O).token = tokVar ∨
      (finState s O).token = tokCmd ∨ (finState s O).token = tokEscape) = True :=
    eq_true (show (2 : Int) = 4 ∨ (2 : Int) = 3 ∨ (2 : Int) = 1 ∨ (2 : Int) = 2 by decide)
  have ht3 : ((eolState s O).token = tokEOF) = False :=
    eq_false (show ¬((5 : Int) = 9) by decide)
  have ht4 : ((eolState s O).token = tokString ∨ (eolState s O).token = tokVar ∨
      (eolState s O).token = tokCmd ∨ (eolState s O).token = tokEscape) = False :=
    eq_false (show ¬((5 : Int) = 4 ∨ (5 : Int) = 3 ∨ (5 : Int) = 1 ∨ (5 : Int) = 2) by decide)
  have ht5 : (({ eolState s O with token := tokEOF }).token = tokEOF) = True :=
    eq_true (show (9 : Int) = 9 from rfl)
  simp only [parseArgsLoop, hg1, hg2, hg3, ht1, ht2, ht3, ht4, ht5, or_true, if_true,
    if_false, GetString_fin s O hne]

/-- escScan over plain characters changes no accumulator except the last
character seen. -/
theorem escScan_plain (s : List Char) (h : ∀ c ∈ s, plainWordChar c) :
    ∀ (b : Int) (sp hb : Bool) (e : Char),
      ∃ e2, escScan s b sp hb e = some (b, sp, hb, e2) := by
  induction s with
  | nil => intro b sp hb e; exact ⟨e, rfl⟩
  | cons ch rest ih =>
    intro b sp hb e
    obtain ⟨h1, h2, h3, h4, h5, h6, h7, h8, h9, h10, h11, h12, h13, h14, h15⟩ :=
      h ch (List.mem_cons_self ch rest)
    have hrest : ∀ c ∈ rest, plainWordChar c := fun c hcm => h c (List.mem_cons_of_mem ch hcm)
    obtain ⟨e2, he⟩ := ih hrest b sp hb ch
    refine ⟨e2, ?_⟩
    have hblank : ¬(ch = ' ' ∨ ch = '\t' ∨ ch = '\n' ∨ ch = '\r' ∨ ch = Char.ofNat 11 ∨
        ch = '[' ∨ ch = ']' ∨ ch = '$') := by
      intro hx
      rcases hx with hx | hx | hx | hx | hx | hx | hx | hx
      exacts [h1 hx, h2 hx, h3 hx, h4 hx, h5 hx, h8 hx, h9 hx, h10 hx]
    simp only [escScan]
    rw [if_neg hblank,
      if_neg (show ¬((ch = ' ' ∨ ch = '\t' ∨ ch = '\n' ∨ ch = '\r' ∨ ch = Char.ofNat 11 ∨
        ch = '[' ∨ ch = ']' ∨ ch = '$') ∧ b = 0) from fun hx => hblank hx.1),
      if_neg h12, if_neg h13, if_neg h11]
    exact he

/-- StringEscape returns a nonempty plain word unchanged. -/
theorem StringEscape_plain (v : String) (h : ∀ c ∈ v.data, plainWordChar c)
    (hne : v ≠ "") : StringEscape v = v := by
  obtain ⟨e2, he⟩ := escScan_plain v.data h 0 false false (Char.ofNat 0)
  simp only [StringEscape]
  rw [if_neg hne]
  simp only [he]
  rfl

set_option maxRecDepth 40000 in
/-- C1: for a value v all of whose characters are plain word characters
(no whitespace, word or substitution syntax), the list command produces
StringEscape v as its result and ParseArgs returns exactly the one-element
list holding v again. -/
theorem C1_amended (v : String) (hv : ∀ c ∈ v.data, plainWordChar c) :
    (cmdList NewTCL ["list", v]).map (fun p => p.2.result) = some (StringEscape v) ∧
    ParseArgs (StringEscape v) = some [v] := by
  by_cases hv0 : v = ""
  · subst hv0
    exact ⟨by decide, by decide⟩
  · have hSE : StringEscape v = v := StringEscape_plain v hv hv0
    have hvd : v.data ≠ [] := fun hd0 => hv0 (String.ext (by rw [hd0]))
    constructor
    · have hjoin : " " ++ v ++ "" ≠ "" := by
        intro hq
        have h1 := congrArg String.length hq
        rw [String.length_append, String.length_append] at h1
        rw [show (" " : String).length = 1 from rfl,
          show ("" : String).length = 0 from rfl] at h1
        omega
      have hdrop : (" " ++ v ++ "").drop 1 = v := by
        rw [String.drop_eq, String.data_append, String.data_append]
        rw [show (" " : String).data = [' '] from rfl,
          show ("" : String).data = ([] : List Char) from rfl]
        rw [List.append_nil, List.singleton_append, List.drop_one, List.tail_cons]
      simp only [cmdList, cmdListJoin, List.drop_succ_cons, List.drop_zero, hSE]
      rw [if_neg hjoin]
      simp only [SetResult, hdrop]
      rfl
    · rw [hSE]
      rcases hd : v.data with _ | ⟨c, cs⟩
      · exact absurd hd hvd
      · have hnp : newParser v.data
            { noCommands := true, noEscapes := true, noVars := true, noEval := true } =
            some (scanState (c :: cs) 0
              { noCommands := true, noEscapes := true, noVars := true, noEval := true }) := by
          rw [hd, newParser_cons]
        simp only [ParseArgs]
        rw [if_neg hv0]
        simp only [hnp]
        have hplain2 : ∀ ch ∈ (c :: cs), plainWordChar ch := by
          rw [← hd]
          exact hv
        have hlen : 0 < (c :: cs).length := by simp
        rw [parseArgsLoop_plain (c :: cs) _ [] hplain2 hlen _ (by omega)]
        rw [List.nil_append, show String.mk (c :: cs) = v from by rw [← hd]]

set_option maxRecDepth 40000 in
/-- C1 counterexample: the value \x7bab\x7d is representable as a single
word (it is the one word of the input \x7b\x7bab\x7d\x7d), but the list
command leaves it unchanged, and re-parsing that yields the word ab, not
the original value: the round trip fails for brace-wrapped values. -/
theorem C1_cex :
    ParseArgs "\x7b\x7bab\x7d\x7d" = some ["\x7bab\x7d"] ∧
    (cmdList NewTCL ["list", "\x7bab\x7d"]).map (fun p => p.2.result) =
      some "\x7bab\x7d" ∧
    ParseArgs "\x7bab\x7d" = some ["ab"] ∧
    "ab" ≠ "\x7bab\x7d" := by
  decide

set_option maxRecDepth 40000 in
/-- Witness for C1_amended at the plain word abc. -/
theorem C1_amended_witness :
    (cmdList NewTCL ["list", "abc"]).map (fun p => p.2.result) =
      some (StringEscape "abc") ∧
    ParseArgs (StringEscape "abc") = some ["abc"] :=
  C1_amended "abc" (by decide)

end TinyTcl
